import Mathlib

/-
Verification development for the StepWright declarative web-automation
engine (Framework-Island/stepwright).

The development shallowly embeds the engine's core:

* the pure template utilities of `src/utils.ts`
  (`replaceIndexPlaceholders`, `replaceDataPlaceholders`, `locatorFor`,
  `cloneStepWithIndex`, `flattenNestedForeachResults`),
* the step interpreter of `src/step-executor.ts`
  (`executeStep`, `executeStepInContext`, `executeStepList`), and
* the per-tab pagination loop of `src/tab-executor.ts`
  (`runPagination`, `executeTab`).

Browser/driver primitives (Playwright locator counts, extraction, clicks,
navigation, page creation) are abstracted as a `Driver` record over an
opaque world state, exactly at the granularity at which the TypeScript
code calls them.  JavaScript `undefined` is `Option.none`, JS truthiness
of optional strings/numbers/booleans is modelled explicitly at each use
site, thrown exceptions are an `Option String` error channel that carries
the partially mutated collector (JS mutation-in-place semantics), and the
recursive interpreter is indexed by a structural fuel so that every
definition is executable by the kernel; fuel exhaustion is `none`, kept
distinct from the engine's own error channel.
-/

set_option autoImplicit false
set_option maxRecDepth 4000

namespace StepWright

/-! ## Basic template types (src/types.ts) -/

/-- `SelectorType`; `cls` renders the TypeScript literal `"class"`. -/
inductive SelectorType where
  | id | cls | tag | xpath
deriving DecidableEq, Repr

/-- `DataType` of a `data` step; `dflt` renders the literal `"default"`. -/
inductive DataType where
  | text | html | value | dflt | attribute
deriving DecidableEq, Repr

/-- Step actions.  The union in src/types.ts plus `wait`, which the
executor handles as its own switch case; `openPage` renders `"open"`. -/
inductive Action where
  | navigate | input | click | data | scroll | reload | wait
  | eventBaseDownload | foreach | openPage | savePDF | printToPDF
  | downloadFile | downloadPDF
deriving DecidableEq, Repr

/-- `BaseStep` step descriptors.  Optional TS fields are `Option`s;
`index_key` is the foreach index-token name read by the executor
(`step.index_key || 'i'`). -/
inductive BaseStep where
  | mk (id : String) (description : Option String)
      (object_type : Option SelectorType) (object : Option String)
      (action : Action) (value : Option String) (key : Option String)
      (data_type : Option DataType) (wait : Option Nat)
      (terminateonerror : Option Bool) (subSteps : List BaseStep)
      (autoScroll : Option Bool) (index_key : Option String)

def BaseStep.id : BaseStep → String
  | .mk x _ _ _ _ _ _ _ _ _ _ _ _ => x

def BaseStep.description : BaseStep → Option String
  | .mk _ x _ _ _ _ _ _ _ _ _ _ _ => x

def BaseStep.object_type : BaseStep → Option SelectorType
  | .mk _ _ x _ _ _ _ _ _ _ _ _ _ => x

def BaseStep.object : BaseStep → Option String
  | .mk _ _ _ x _ _ _ _ _ _ _ _ _ => x

def BaseStep.action : BaseStep → Action
  | .mk _ _ _ _ x _ _ _ _ _ _ _ _ => x

def BaseStep.value : BaseStep → Option String
  | .mk _ _ _ _ _ x _ _ _ _ _ _ _ => x

def BaseStep.key : BaseStep → Option String
  | .mk _ _ _ _ _ _ x _ _ _ _ _ _ => x

def BaseStep.data_type : BaseStep → Option DataType
  | .mk _ _ _ _ _ _ _ x _ _ _ _ _ => x

def BaseStep.wait : BaseStep → Option Nat
  | .mk _ _ _ _ _ _ _ _ x _ _ _ _ => x

def BaseStep.terminateonerror : BaseStep → Option Bool
  | .mk _ _ _ _ _ _ _ _ _ x _ _ _ => x

def BaseStep.subSteps : BaseStep → List BaseStep
  | .mk _ _ _ _ _ _ _ _ _ _ x _ _ => x

def BaseStep.autoScroll : BaseStep → Option Bool
  | .mk _ _ _ _ _ _ _ _ _ _ _ x _ => x

def BaseStep.index_key : BaseStep → Option String
  | .mk _ _ _ _ _ _ _ _ _ _ _ _ x => x

/-- JS truthiness of an optional string (`undefined` and `""` are falsy). -/
def strTruthy : Option String → Bool
  | none => false
  | some s => !(s = "")

/-- JS truthiness of `step.terminateonerror`. -/
def teo (s : BaseStep) : Bool := s.terminateonerror = some true

/-- `a || b` on an optional string against a string default. -/
def jsOrStr (a : Option String) (b : String) : String :=
  match a with
  | some s => if s = "" then b else s
  | none => b

/-- Collector key of a `data` step: `step.key || step.id || 'data'`. -/
def dataKey (s : BaseStep) : String := jsOrStr s.key (jsOrStr (some s.id) "data")

/-- Collector key of the download/PDF steps: `step.key || step.id || 'file'`. -/
def fileKey (s : BaseStep) : String := jsOrStr s.key (jsOrStr (some s.id) "file")

/-! ## Decimal rendering of naturals (JS `Number.prototype.toString`)

Executable by the kernel (structural fuel) and provably injective, which
the foreach `item_<idx>` freshness argument needs. -/

/-- A decimal digit character. -/
def digitChar : Nat → Char
  | 0 => '0' | 1 => '1' | 2 => '2' | 3 => '3' | 4 => '4'
  | 5 => '5' | 6 => '6' | 7 => '7' | 8 => '8' | _ => '9'

/-- Decimal digits of `n`, most significant first; `fuel > n` suffices. -/
def natDigitsF : Nat → Nat → List Char
  | 0, _ => []
  | f + 1, n =>
    if n < 10 then [digitChar n]
    else natDigitsF f (n / 10) ++ [digitChar (n % 10)]

/-- Decimal rendering of a natural, as produced by `idx.toString()`. -/
def natToStr (n : Nat) : String := ⟨natDigitsF (n + 1) n⟩

theorem natDigitsF_congr : ∀ f g n, n < f → n < g →
    natDigitsF f n = natDigitsF g n := by
  intro f
  induction f with
  | zero => omega
  | succ f ih =>
    intro g n hf hg
    match g, hg with
    | g + 1, _ =>
      by_cases h10 : n < 10
      · simp [natDigitsF, h10]
      · have hd : n / 10 < n := Nat.div_lt_self (by omega) (by omega)
        simp only [natDigitsF, if_neg h10]
        rw [ih g (n / 10) (by omega) (by omega)]

/-- Value of a digit character produced by `digitChar`. -/
def digitVal (c : Char) : Nat :=
  if c = '0' then 0 else if c = '1' then 1 else if c = '2' then 2
  else if c = '3' then 3 else if c = '4' then 4 else if c = '5' then 5
  else if c = '6' then 6 else if c = '7' then 7 else if c = '8' then 8
  else 9

theorem digitVal_digitChar {d : Nat} (h : d < 10) :
    digitVal (digitChar d) = d := by
  interval_cases d <;> decide

/-- Numeric value of a digit list, most significant first. -/
def digitsVal (l : List Char) : Nat := l.foldl (fun a c => a * 10 + digitVal c) 0

theorem foldl_digits_shift (l : List Char) : ∀ a : Nat,
    l.foldl (fun a c => a * 10 + digitVal c) a =
      a * 10 ^ l.length + l.foldl (fun a c => a * 10 + digitVal c) 0 := by
  induction l with
  | nil => intro a; simp
  | cons c l ih =>
    intro a
    simp only [List.foldl_cons, List.length_cons]
    rw [ih (a * 10 + digitVal c), ih (0 * 10 + digitVal c)]
    ring

theorem digitsVal_append (l : List Char) (c : Char) :
    digitsVal (l ++ [c]) = digitsVal l * 10 + digitVal c := by
  simp only [digitsVal, List.foldl_append, List.foldl_cons, List.foldl_nil]

theorem digitsVal_natDigitsF : ∀ f n, n < f → digitsVal (natDigitsF f n) = n := by
  intro f
  induction f with
  | zero => omega
  | succ f ih =>
    intro n hn
    simp only [natDigitsF]
    split
    · rename_i h10
      simp only [digitsVal, List.foldl_cons, List.foldl_nil, Nat.zero_mul,
        Nat.zero_add]
      exact digitVal_digitChar h10
    · rename_i h10
      have hd : n / 10 < n := Nat.div_lt_self (by omega) (by omega)
      rw [digitsVal_append, ih (n / 10) (by omega),
        digitVal_digitChar (Nat.mod_lt _ (by omega))]
      omega

theorem natToStr_injective : Function.Injective natToStr := by
  intro a b h
  have ha := digitsVal_natDigitsF (a + 1) a (by omega)
  have hb := digitsVal_natDigitsF (b + 1) b (by omega)
  have hdata : natDigitsF (a + 1) a = natDigitsF (b + 1) b := by
    have := congrArg String.data h
    simpa [natToStr] using this
  rw [hdata] at ha
  omega

/-! ## Whitespace and token matching

The placeholder regexes of src/utils.ts.  `\s` is modelled by ASCII
whitespace (the JS class also has unicode spaces, unused by templates). -/

def isWS (c : Char) : Bool :=
  c = ' ' || c = '\t' || c = '\n' || c = '\r' || c = '\x0b' || c = '\x0c'

/-- Strip an expected literal prefix. -/
def dropPref : List Char → List Char → Option (List Char)
  | [], s => some s
  | _, [] => none
  | p :: ps, c :: cs => if p = c then dropPref ps cs else none

theorem dropPref_length : ∀ {p s r : List Char}, dropPref p s = some r →
    r.length ≤ s.length := by
  intro p
  induction p with
  | nil =>
    intro s r h
    simp only [dropPref, Option.some.injEq] at h
    subst h
    exact le_rfl
  | cons c cs ih =>
    intro s r h
    match s with
    | [] => simp [dropPref] at h
    | x :: xs =>
      simp only [dropPref] at h
      split at h
      · exact Nat.le_succ_of_le (ih h)
      · exact absurd h (by simp)

theorem length_dropWhile_le (p : Char → Bool) :
    ∀ l : List Char, (l.dropWhile p).length ≤ l.length := by
  intro l
  induction l with
  | nil => simp [List.dropWhile]
  | cons c cs ih =>
    simp only [List.dropWhile]
    split
    · exact Nat.le_succ_of_le ih
    · simp

/-- Expect the two-character run `cc` at the head of `s` (the `\x7b\x7b`
and `\x7d\x7d` delimiters); returns the remainder. -/
def expectTwo (c : Char) (s : List Char) : Option (List Char) :=
  match s with
  | a :: b :: rest => if a = c ∧ b = c then some rest else none
  | _ => none

theorem expectTwo_length {c : Char} {s r : List Char}
    (h : expectTwo c s = some r) : r.length + 2 = s.length := by
  match s with
  | [] => simp [expectTwo] at h
  | [a] => simp [expectTwo] at h
  | a :: b :: rest =>
    simp only [expectTwo] at h
    split at h
    · cases h; simp
    · exact absurd h (by simp)

/-- Match the regex `\x7b\x7b\s*tok\s*\x7d\x7d` at the head of `s`
(`replaceIndexPlaceholders` builds it from the token name); returns the
remainder after the match.  The token is matched literally; the engine's
token names are plain identifiers without regex metacharacters or leading
whitespace, so greedy `\s*` needs no backtracking. -/
def matchIndexTok (tok : List Char) (s : List Char) : Option (List Char) :=
  match expectTwo '\x7b' s with
  | none => none
  | some rest =>
    match dropPref tok (rest.dropWhile isWS) with
    | none => none
    | some r2 => expectTwo '\x7d' (r2.dropWhile isWS)

theorem matchIndexTok_length {tok s r : List Char}
    (h : matchIndexTok tok s = some r) : r.length < s.length := by
  simp only [matchIndexTok] at h
  split at h
  · exact absurd h (by simp)
  · rename_i rest hopen
    split at h
    · exact absurd h (by simp)
    · rename_i r2 hpref
      have h1 := expectTwo_length hopen
      have h2 : r2.length ≤ rest.length :=
        le_trans (dropPref_length hpref) (length_dropWhile_le _ _)
      have h3 := expectTwo_length h
      have h4 := length_dropWhile_le isWS r2
      omega

/-- One global pass of `text.replace(tokRegex, rep)`: every match is
replaced and the replacement is not rescanned; `fuel > s.length`
suffices. -/
def replTokCoreF (tok rep : List Char) : Nat → List Char → List Char
  | 0, s => s
  | f + 1, s =>
    match matchIndexTok tok s with
    | some rem => rep ++ replTokCoreF tok rep f rem
    | none =>
      match s with
      | [] => []
      | c :: rest => c :: replTokCoreF tok rep f rest

def replTok (tok rep s : List Char) : List Char :=
  replTokCoreF tok rep (s.length + 1) s

/-- src/utils.ts `replaceIndexPlaceholders(text, i, char)`: JS falsy guard
(`undefined`/`""` returned unchanged), then the `\x7b\x7btok\x7d\x7d` pass
followed by the `\x7b\x7btok_plus1\x7d\x7d` pass applied to its output. -/
def replaceIndexPlaceholders (text : Option String) (i : Nat) (ch : String) :
    Option String :=
  match text with
  | none => none
  | some s =>
    if s = "" then some s
    else
      let p1 := replTok ch.data (natToStr i).data s.data
      let p2 := replTok (ch.data ++ ("_plus1" : String).data)
        (natToStr (i + 1)).data p1
      some ⟨p2⟩

/-! ## Collector values -/

/-- A collector value: extracted string, JS `null`, or a nested collector
(foreach item).  Collectors are insertion-ordered key/value lists, the
shape `Object.keys` iteration exposes for these objects. -/
inductive CValue where
  | vstr (s : String)
  | vnull
  | vobj (fields : List (String × CValue))

abbrev Collector := List (String × CValue)

/-- JS property read `collector[k]` (`none` is `undefined`). -/
def lookupKey : Collector → String → Option CValue
  | [], _ => none
  | (k', v) :: rest, k => if k' = k then some v else lookupKey rest k

/-- JS property write `collector[k] = v`: updates in place, appends when
new (insertion order preserved). -/
def setKey : Collector → String → CValue → Collector
  | [], k, v => [(k, v)]
  | (k', v') :: rest, k, v =>
    if k' = k then (k', v) :: rest else (k', v') :: setKey rest k v

def colKeys (c : Collector) : List String := c.map Prod.fst

def strStartsWith (s p : String) : Bool := p.data.isPrefixOf s.data

def isItemKey (k : String) : Bool := strStartsWith k "item_"

/-- The foreach iteration key `` `item_${idx}` ``. -/
def itemKey (idx : Nat) : String := "item_" ++ natToStr idx

/-- JS truthiness of a collector value. -/
def truthyCV : CValue → Bool
  | .vnull => false
  | .vstr s => !(s = "")
  | .vobj _ => true

/-- `Object.keys(v).length` (string values expose their indices;
`vnull` sits behind a truthiness guard wherever this is used). -/
def cvKeysCount : CValue → Nat
  | .vnull => 0
  | .vstr s => s.length
  | .vobj fields => fields.length

/-- Object spread `{...v}` of a collector value. -/
def spreadCV : CValue → Collector
  | .vobj fields => fields
  | .vstr s => s.data.enum.map (fun ic => (natToStr ic.1, .vstr ⟨[ic.2]⟩))
  | .vnull => []

/-- `{...a, ...b}` / `Object.assign(a, b)`: `b`'s entries written into `a`
in `b`'s key order. -/
def mergeObj (a b : Collector) : Collector :=
  b.foldl (fun acc kv => setKey acc kv.1 kv.2) a

/-! ## Data placeholders -/

/-- `String(value)` for a defined, non-null collector value. -/
def cvToString : CValue → String
  | .vstr s => s
  | .vnull => "null"
  | .vobj _ => "[object Object]"

/-- JS `trim` (ASCII whitespace model). -/
def jsTrim (l : List Char) : List Char :=
  ((l.dropWhile isWS).reverse.dropWhile isWS).reverse

/-- Characters kept by `.replace(/[^a-zA-Z0-9\s\-_]/g, '')`. -/
def keepChar (c : Char) : Bool :=
  c.isAlpha || c.isDigit || isWS c || c = '-' || c = '_'

/-- `.replace(/\s+/g, '_')`: each maximal whitespace run becomes one
underscore.  The flag tracks being inside a run. -/
def collapseWS : Bool → List Char → List Char
  | _, [] => []
  | inRun, c :: rest =>
    if isWS c then
      if inRun then collapseWS true rest else '_' :: collapseWS true rest
    else c :: collapseWS false rest

/-- The filename sanitization applied to substituted collector values:
`String(value).trim().replace(/[^a-zA-Z0-9\s\-_]/g, '').replace(/\s+/g, '_')`. -/
def sanitizeJS (s : String) : String :=
  ⟨collapseWS false ((jsTrim s.data).filter keepChar)⟩

/-- Match `\x7b\x7b\s*([^\x7d]+)\s*\x7d\x7d` at the head of `s`
(`replaceDataPlaceholders`).  Returns `(matched text, captured key,
remainder)`.  The interior is the maximal `\x7d`-free run; it must be
non-empty and followed by `\x7d\x7d`.  Greedy `[^\x7d]+` leaves trailing
whitespace inside the capture; leading whitespace goes to the first
`\s*`, except that an all-whitespace interior backtracks to leave its
last character as the capture. -/
def matchDataTok (s : List Char) : Option (List Char × List Char × List Char) :=
  match expectTwo '\x7b' s with
  | none => none
  | some rest =>
    let content := rest.takeWhile (fun c => !(c = '\x7d'))
    match expectTwo '\x7d' (rest.dropWhile (fun c => !(c = '\x7d'))) with
    | none => none
    | some rem =>
      if content.isEmpty then none
      else
        let trimmed := content.dropWhile isWS
        let key := if trimmed.isEmpty then content.drop (content.length - 1)
          else trimmed
        some ('\x7b' :: '\x7b' :: (content ++ ['\x7d', '\x7d']), key, rem)

theorem matchDataTok_length {s m k rem : List Char}
    (h : matchDataTok s = some (m, k, rem)) : rem.length < s.length := by
  simp only [matchDataTok] at h
  split at h
  · exact absurd h (by simp)
  · rename_i rest hopen
    split at h
    · exact absurd h (by simp)
    · rename_i rem' hclose
      split at h
      · exact absurd h (by simp)
      · simp only [Option.some.injEq, Prod.mk.injEq] at h
        obtain ⟨-, -, hr⟩ := h
        subst hr
        have h1 := expectTwo_length hopen
        have h2 := expectTwo_length hclose
        have h3 := length_dropWhile_le (fun c => !(c = '\x7d')) rest
        omega

/-- One global pass of the data-placeholder replacement: a matched key
defined and non-null in the collector is replaced by its sanitized
stringification, otherwise the matched text is kept; either way scanning
resumes after the match (`fuel > s.length` suffices). -/
def replaceDataCoreF (collector : Collector) : Nat → List Char → List Char
  | 0, s => s
  | f + 1, s =>
    match matchDataTok s with
    | some (m, k, rem) =>
      (match lookupKey collector ⟨k⟩ with
       | some .vnull => m
       | none => m
       | some v => (sanitizeJS (cvToString v)).data)
        ++ replaceDataCoreF collector f rem
    | none =>
      match s with
      | [] => []
      | c :: rest => c :: replaceDataCoreF collector f rest

/-- src/utils.ts `replaceDataPlaceholders(text, collector)`. -/
def replaceDataPlaceholders (text : Option String) (collector : Collector) :
    Option String :=
  match text with
  | none => none
  | some s =>
    if s = "" then some s
    else some ⟨replaceDataCoreF collector (s.data.length + 1) s.data⟩

/-! ## Locators and selectors -/

/-- A driver locator: a page root, a selector applied under a parent
locator (`locatorFor`), an indexed match (`nth`), or the first match. -/
inductive Loc where
  | page (pid : Nat)
  | sub (parent : Loc) (sel : String)
  | nth (parent : Loc) (idx : Nat)
  | first (parent : Loc)

/-- Selector string built by src/utils.ts `locatorFor`. -/
def selectorStringFor (t : Option SelectorType) (sel : String) : String :=
  match t with
  | none => sel
  | some .id => "#" ++ sel
  | some .cls => "." ++ sel
  | some .tag => sel
  | some .xpath => "xpath=" ++ sel

/-- src/utils.ts `locatorFor` rooted at a page or at a scoping locator. -/
def locatorFor (parent : Loc) (t : Option SelectorType) (sel : String) : Loc :=
  Loc.sub parent (selectorStringFor t sel)

/-! ## Step cloning (src/utils.ts `cloneStepWithIndex`) -/

mutual

/-- `cloneStepWithIndex(step, idx, char)`: spread-copy, then index
substitution on `object`, `value`, `key`, recursively over `subSteps`. -/
def cloneStepWithIndex : BaseStep → Nat → String → BaseStep
  | .mk i d ot ob ac v k dt w t subs asc ik, idx, ch =>
    .mk i d ot (replaceIndexPlaceholders ob idx ch) ac
      (replaceIndexPlaceholders v idx ch) (replaceIndexPlaceholders k idx ch)
      dt w t (cloneSubSteps subs idx ch) asc ik

def cloneSubSteps : List BaseStep → Nat → String → List BaseStep
  | [], _, _ => []
  | s :: rest, idx, ch =>
    cloneStepWithIndex s idx ch :: cloneSubSteps rest idx ch

end

/-! ## Flattening (src/utils.ts `flattenNestedForeachResults`) -/

/-- Result of flattening: an array of merged records when nested
`item_*` keys are present, else the collector itself. -/
inductive FlatResult where
  | one (item : Collector)
  | many (items : List Collector)

/-- `k.split(sep)` on character lists. -/
def splitChars (sep : Char) : List Char → List (List Char)
  | [] => [[]]
  | c :: rest =>
    let r := splitChars sep rest
    if c = sep then [] :: r
    else
      match r with
      | [] => [[c]]
      | h :: t => (c :: h) :: t

def isDigitC (c : Char) : Bool :=
  c = '0' || c = '1' || c = '2' || c = '3' || c = '4' ||
  c = '5' || c = '6' || c = '7' || c = '8' || c = '9'

/-- `parseInt` on a decimal prefix: `none` is JS `NaN`. -/
def parseIntJS (l : List Char) : Option Nat :=
  let d := l.takeWhile isDigitC
  if d.isEmpty then none
  else some (d.foldl (fun a c => a * 10 + digitVal c) 0)

/-- `parseInt(k.split('_')[1])` for the `item_*` keys the engine
generates (for malformed keys JS would compare `NaN`s, which the sort
leaves unspecified; the model parses `0`). -/
def itemIdxOf (k : String) : Nat :=
  (parseIntJS ((splitChars '_' k.data).getD 1 [])).getD 0

/-- Stable insertion keeping earlier-listed keys before equal indices. -/
def insertByIdx (k : String) : List String → List String
  | [] => [k]
  | x :: xs =>
    if itemIdxOf k ≤ itemIdxOf x then k :: x :: xs else x :: insertByIdx k xs

/-- `keys.sort((a, b) => aIdx - bIdx)` (stable, as in modern JS). -/
def sortByIdx : List String → List String
  | [] => []
  | x :: xs => insertByIdx x (sortByIdx xs)

/-- src/utils.ts `flattenNestedForeachResults(item)`. -/
def flattenNestedForeachResults (item : Collector) : FlatResult :=
  let context := item.filter (fun kv => !(isItemKey kv.1))
  let nestedItemKeys := (colKeys item).filter isItemKey
  if nestedItemKeys.length > 0 then
    .many ((sortByIdx nestedItemKeys).filterMap (fun k =>
      match lookupKey item k with
      | some v =>
        if truthyCV v && decide (0 < cvKeysCount v) then
          some (mergeObj context (spreadCV v))
        else none
      | none => none))
  else .one item

/-! ## The browser driver abstraction

One record field per Playwright primitive the engine calls, over an
opaque world state `σ`.  `Except` results model the awaited promise
(`.error` is a rejection the engine may catch); operations whose internal
failures the engine provably swallows wholesale (the download/PDF
strategy ladders) are folded into total transactions returning success
flags, since only the saved-or-null outcome is observable in the
collector. -/

abbrev Err := String

structure Driver (σ : Type) where
  count : σ → Loc → Except Err Nat
  waitForAttached : σ → Loc → Nat → Except Err Unit
  textContent : σ → Loc → Except Err (Option String)
  innerHTML : σ → Loc → Except Err String
  inputValue : σ → Loc → Except Err String
  innerText : σ → Loc → Except Err String
  getAttr : σ → Loc → String → Except Err (Option String)
  isVisible : σ → Loc → Except Err Bool
  isDisabled : σ → Loc → Except Err Bool
  clickLoc : σ → Loc → Except Err σ
  typeText : σ → Loc → String → Except Err σ
  scrollIntoView : σ → Loc → Except Err σ
  scrollBy : σ → Int → σ
  innerHeight : σ → Int
  goto : σ → Nat → String → Except Err σ
  reload : σ → Nat → Except Err σ
  waitNetworkIdle : σ → Nat → Except Err σ
  pageUrl : σ → Nat → String
  resolveUrl : String → String → String
  newPage : σ → Nat × σ
  closePage : σ → Nat → σ
  openByClick : σ → Loc → Except Err (Nat × σ)
  downloadEvent : σ → Loc → Bool × σ
  downloadFetch : σ → Loc → Bool × σ
  savePdf : σ → Nat → String → Bool × σ
  printPdf : σ → Nat → String → Bool × σ

/-! ## The scraper primitives (src/scraper.ts) used by the executor -/

/-- `elem(page, type, selector)`: throws on empty selector and on a
missing/unknown selector type, else builds the page-rooted locator. -/
def elemModel (pid : Nat) (t : Option SelectorType) (sel : String) :
    Except Err Loc :=
  if sel = "" then .error "Selector is required"
  else
    match t with
    | some .id => .ok (Loc.sub (Loc.page pid) ("#" ++ sel))
    | some .cls => .ok (Loc.sub (Loc.page pid) ("." ++ sel))
    | some .tag => .ok (Loc.sub (Loc.page pid) sel)
    | some .xpath => .ok (Loc.sub (Loc.page pid) ("xpath=" ++ sel))
    | none => .error "Invalid selector type"

/-- `click(page, type, selector)` = `elem` then `element.click()`. -/
def clickModel {σ} (D : Driver σ) (w : σ) (pid : Nat) (t : Option SelectorType)
    (sel : String) : Except Err σ :=
  match elemModel pid t sel with
  | .error e => .error e
  | .ok loc => D.clickLoc w loc

/-- `navigate(page, url)`: throws `'Url is required'` on a falsy url,
else `page.goto(url, networkidle)`. -/
def navigateModel {σ} (D : Driver σ) (w : σ) (pid : Nat) (url : String) :
    Except Err σ :=
  if url = "" then .error "Url is required" else D.goto w pid url

/-- `input(...)` = `elem` then `element.type(value)`. -/
def inputModel {σ} (D : Driver σ) (w : σ) (pid : Nat) (t : Option SelectorType)
    (sel value : String) : Except Err σ :=
  match elemModel pid t sel with
  | .error e => .error e
  | .ok loc => D.typeText w loc value

/-! ## Attribute-selector stripping (`data` steps)

The regex `\/@\w+$` of the `data` case: a trailing `/@name` with a
non-empty word-character name. -/

def isWordChar (c : Char) : Bool := c.isAlpha || isDigitC c || c = '_'

/-- Split a trailing `/@name`: `some (stripped prefix, name)`. -/
def attrSuffixSplit (s : String) : Option (String × String) :=
  let rev := s.data.reverse
  let w := rev.takeWhile isWordChar
  match rev.drop w.length with
  | '@' :: '/' :: restRev =>
    if w.isEmpty then none else some (⟨restRev.reverse⟩, ⟨w.reverse⟩)
  | _ => none

/-- The repeated `scopeLocator ? locatorFor(scopeLocator, …) :
locatorFor(page, …)` ternary of the executor. -/
def scopedLocator (pid : Nat) (scope : Option Loc) (t : Option SelectorType)
    (sel : String) : Loc :=
  match scope with
  | some sc => locatorFor sc t sel
  | none => locatorFor (Loc.page pid) t sel

/-- The existence-probe selector of a `data` step: a trailing `/@attr` is
stripped first when `data_type` is `attribute`. -/
def dataCheckSelector (step : BaseStep) : String :=
  let checkSel0 := step.object.getD ""
  if step.data_type = some .attribute then
    match attrSuffixSplit checkSel0 with
    | some pn => pn.1
    | none => checkSel0
  else checkSel0

/-! ## Interpreter state and result -/

/-- Interpreter state: the driver world, the stream of records delivered
to the ambient `onResultCallback`, and `collects`, a ghost counter of
per-page step-list collections performed by `executeTab` (instrumentation
only; it influences nothing). -/
structure ExecSt (σ : Type) where
  world : σ
  emitted : List (FlatResult × Nat)
  collects : Nat

/-- Result of one interpreter call: final state, the (mutated-in-place)
collector, and the error being thrown, if any.  The surrounding `Option`
is fuel exhaustion, a model artifact distinct from engine errors. -/
abbrev StepRes (σ : Type) := ExecSt σ × Collector × Option Err

abbrev StepFn (σ : Type) :=
  Nat → BaseStep → Collector → Option Loc → ExecSt σ → Option (StepRes σ)

/-- The step-list loop shared by `executeStepList` and the `open`
sub-step loop: run each step, catch its error, rethrow only when the
step's `terminateonerror` is truthy. -/
def runStepList {σ} (f : BaseStep → Collector → ExecSt σ → Option (StepRes σ)) :
    List BaseStep → Collector → ExecSt σ → Option (StepRes σ)
  | [], col, st => some (st, col, none)
  | s :: rest, col, st =>
    match f s col st with
    | none => none
    | some (st', col', some e) =>
      if teo s then some (st', col', some e) else runStepList f rest col' st'
    | some (st', col', none) => runStepList f rest col' st'

/-- The foreach sub-step loop: clone with the iteration index, run
against the item collector scoped to the current element, catch, rethrow
only when the cloned sub-step's `terminateonerror` is truthy (which
aborts the whole foreach). -/
def runSubStepsCloned {σ}
    (f : BaseStep → Collector → Option Loc → ExecSt σ → Option (StepRes σ))
    (idx : Nat) (ikey : String) (cur : Loc) :
    List BaseStep → Collector → ExecSt σ → Option (StepRes σ)
  | [], col, st => some (st, col, none)
  | s :: rest, col, st =>
    let cloned := cloneStepWithIndex s idx ikey
    match f cloned col (some cur) st with
    | none => none
    | some (st', col', some e) =>
      if teo cloned then some (st', col', some e)
      else runSubStepsCloned f idx ikey cur rest col' st'
    | some (st', col', none) => runSubStepsCloned f idx ikey cur rest col' st'

/-- The fresh item collector of a foreach iteration: the parent's
non-`item_*` (context) entries. -/
def seedItemCollector (col : Collector) : Collector :=
  col.filter (fun kv => !(isItemKey kv.1))

/-- The foreach iteration loop (`for (let idx = 0; idx < count; idx++)`),
`remaining` counting down from the match count.  Per iteration: optional
scroll-into-view (an uncaught rejection aborts the foreach), seed the item
collector, run the cloned sub-steps, store the item under `item_<idx>`,
and, when non-empty and a streaming callback is registered, emit the
flattened item immediately. -/
def foreachIters {σ} (D : Driver σ) (gcb : Bool)
    (f : BaseStep → Collector → Option Loc → ExecSt σ → Option (StepRes σ))
    (locAll : Loc) (subs : List BaseStep) (autoScroll : Option Bool)
    (ikey : String) :
    Nat → Nat → Collector → ExecSt σ → Option (StepRes σ)
  | 0, _, col, st => some (st, col, none)
  | remaining + 1, idx, col, st =>
    let current := Loc.nth locAll idx
    let scrollRes : Except Err σ :=
      if autoScroll = some false then .ok st.world
      else D.scrollIntoView st.world current
    match scrollRes with
    | .error e => some (st, col, some e)
    | .ok w1 =>
      let st1 := { st with world := w1 }
      match runSubStepsCloned f idx ikey current subs (seedItemCollector col) st1 with
      | none => none
      | some (st2, _, some e) => some (st2, col, some e)
      | some (st2, itemCol, none) =>
        let col' := setKey col (itemKey idx) (.vobj itemCol)
        let st3 :=
          if 0 < itemCol.length ∧ gcb then
            { st2 with
              emitted := st2.emitted ++ [(flattenNestedForeachResults itemCol, idx)] }
          else st2
        foreachIters D gcb f locAll subs autoScroll ikey remaining (idx + 1) col' st3

/-- Collector value recorded for a saved-file path. -/
def pathCV : Option String → CValue
  | some p => .vstr p
  | none => .vnull

/-- The `data`-case extraction ladder of `executeStep`, on the first
match of the probed locator. -/
def dataExtract {σ} (D : Driver σ) (w : σ) (step : BaseStep) (loc : Loc) :
    Except Err String :=
  match step.data_type with
  | some .text => (D.textContent w (Loc.first loc)).map (fun o => o.getD "")
  | some .html => D.innerHTML w (Loc.first loc)
  | some .value => D.inputValue w (Loc.first loc)
  | some .attribute =>
    match step.object with
    | some ob =>
      match attrSuffixSplit ob with
      | some pn => (D.getAttr w (Loc.first loc) pn.2).map (fun o => o.getD "")
      | none => (D.textContent w (Loc.first loc)).map (fun o => o.getD "")
    | none => (D.textContent w (Loc.first loc)).map (fun o => o.getD "")
  | some .dflt => (D.textContent w (Loc.first loc)).map (fun o => o.getD "")
  | none => (D.textContent w (Loc.first loc)).map (fun o => o.getD "")

/-- The context-scoped target of `executeStepInContext`'s `data` case
(its own selector mapping, not `locatorFor`). -/
def ctxTargetLoc (ctxEl : Loc) (step : BaseStep) : Loc :=
  match step.object_type with
  | some .tag => Loc.sub ctxEl (step.object.getD "")
  | some .cls => Loc.sub ctxEl ("." ++ step.object.getD "")
  | some .id => Loc.sub ctxEl ("#" ++ step.object.getD "")
  | some .xpath => Loc.sub ctxEl ("xpath=" ++ step.object.getD "")
  | none => Loc.sub ctxEl (step.object.getD "")

/-- The extraction ladder of `executeStepInContext`'s `data` case:
`value` reads the `href` attribute, the default reads inner text. -/
def ctxExtract {σ} (D : Driver σ) (w : σ) (step : BaseStep) (target : Loc) :
    Except Err String :=
  match step.data_type with
  | some .text => (D.textContent w (Loc.first target)).map (fun o => o.getD "")
  | some .html => D.innerHTML w (Loc.first target)
  | some .value => (D.getAttr w (Loc.first target) "href").map (fun o => o.getD "")
  | _ => D.innerText w (Loc.first target)

/-! ## `executeStep` (src/step-executor.ts)

`execStepF` is the body of one `executeStep` call, parameterized by the
recursive interpreter `recur` used for foreach/open sub-steps; `execStep`
ties the knot through the fuel.  The engine's `onResult` parameter is
threaded by the source but never read (only the global callback `gcb`
is consulted for emission), so it is omitted.  `waitForTimeout`-style
post-waits are driver-time no-ops with no observable effect. -/

def execStepF {σ} (D : Driver σ) (gcb : Bool) (recur : StepFn σ) : StepFn σ :=
  fun pid step col scope st =>
    match step.action with
    | .navigate =>
      match navigateModel D st.world pid (step.value.getD "") with
      | .error e => some (st, col, some e)
      | .ok w' => some ({ st with world := w' }, col, none)
    | .input =>
      match inputModel D st.world pid step.object_type (step.object.getD "")
          (step.value.getD "") with
      | .error e => some (st, col, some e)
      | .ok w' => some ({ st with world := w' }, col, none)
    | .click =>
      -- existence probe on the scoped locator, the click itself
      -- page-rooted via `click(page, ...)`; all failures swallowed
      let loc := scopedLocator pid scope step.object_type (step.object.getD "")
      match D.count st.world loc with
      | .error _ => some (st, col, none)
      | .ok 0 => some (st, col, none)
      | .ok (_ + 1) =>
        match clickModel D st.world pid step.object_type (step.object.getD "") with
        | .error _ => some (st, col, none)
        | .ok w' => some ({ st with world := w' }, col, none)
    | .data =>
      -- attribute-selector stripping before the existence probe; zero
      -- matches and extraction failures both record null, nothing throws
      let loc := scopedLocator pid scope step.object_type (dataCheckSelector step)
      match D.count st.world loc with
      | .error _ => some (st, setKey col (dataKey step) .vnull, none)
      | .ok 0 => some (st, setKey col (dataKey step) .vnull, none)
      | .ok (_ + 1) =>
        match dataExtract D st.world step loc with
        | .error _ => some (st, setKey col (dataKey step) .vnull, none)
        | .ok v => some (st, setKey col (dataKey step) (.vstr v), none)
    | .eventBaseDownload =>
      if !strTruthy step.value then
        some (st, col, some "eventBaseDownload requires value as target filepath")
      else
        let res : Option String × σ :=
          match elemModel pid step.object_type (step.object.getD "") with
          | .error _ => (none, st.world)
          | .ok tloc =>
            let vis := match D.isVisible st.world tloc with
              | .ok b => b
              | .error _ => false
            if vis then
              let bw := D.downloadEvent st.world tloc
              (if bw.1 then some (step.value.getD "") else none, bw.2)
            else (none, st.world)
        some ({ st with world := res.2 }, setKey col (fileKey step) (pathCV res.1), none)
    | .foreach =>
      if !strTruthy step.object then
        some (st, col, some "foreach step requires object as locator")
      else if step.subSteps.isEmpty then
        some (st, col, some "foreach step requires subSteps")
      else
        let locAll := scopedLocator pid scope step.object_type (step.object.getD "")
        -- `waitFor attached` result is discarded (empty catch)
        let _ := D.waitForAttached st.world (Loc.first locAll) (step.wait.getD 5000)
        match D.count st.world locAll with
        | .error e => some (st, col, some e)
        | .ok count =>
          foreachIters D gcb (fun s c sc stt => recur pid s c sc stt) locAll
            step.subSteps step.autoScroll (jsOrStr step.index_key "i")
            count 0 col st
    | .openPage =>
      if !strTruthy step.object then
        some (st, col, some "open step requires object locator")
      else if step.subSteps.isEmpty then
        some (st, col, some "open step needs subSteps")
      else
        -- the whole body is inside try/catch; the catch rethrows only
        -- when the open step itself has terminateonerror
        let openCatch : ExecSt σ → Err → Option (StepRes σ) := fun stE e =>
          some (stE, col, if teo step then some e else none)
        let runSubs : Nat → σ → Option (StepRes σ) := fun newPid w2 =>
          match runStepList (fun s c stt => recur newPid s c none stt)
              step.subSteps (seedItemCollector col) { st with world := w2 } with
          | none => none
          | some (st2, _, some e) => openCatch st2 e
          | some (st2, inner, none) =>
            some ({ st2 with world := D.closePage st2.world newPid },
              mergeObj col inner, none)
        let linkLoc := scopedLocator pid scope step.object_type (step.object.getD "")
        match D.count st.world linkLoc with
        | .error e => openCatch st e
        | .ok 0 => some (st, col, none)
        | .ok (_ + 1) =>
          match D.getAttr st.world linkLoc "href" with
          | .error e => openCatch st e
          | .ok hrefOpt =>
            if strTruthy hrefOpt then
              let href0 := hrefOpt.getD ""
              let href :=
                if strStartsWith href0 "//" then "https:" ++ href0
                else if !strStartsWith href0 "http" then
                  D.resolveUrl href0 (D.pageUrl st.world pid)
                else href0
              let pw := D.newPage st.world
              match D.goto pw.2 pw.1 href with
              | .error e => openCatch { st with world := pw.2 } e
              | .ok w2 => runSubs pw.1 w2
            else
              match D.openByClick st.world linkLoc with
              | .error e => openCatch st e
              | .ok (newPid, w2) => runSubs newPid w2
    | .scroll =>
      let offset : Int :=
        if strTruthy step.value then (parseIntJS (step.value.getD "").data).getD 0
        else D.innerHeight st.world
      some ({ st with world := D.scrollBy st.world offset }, col, none)
    | .wait =>
      -- waitForTimeout only; no observable model effect either way
      some (st, col, none)
    | .reload =>
      match D.reload st.world pid with
      | .error _ => some (st, col, none)
      | .ok w' => some ({ st with world := w' }, col, none)
    | .savePDF =>
      if !strTruthy step.value then
        some (st, col, some "savePDF requires value as target filepath")
      else
        let base := step.value.getD ""
        let resolvedPath := jsOrStr (replaceDataPlaceholders (some base) col) base
        let bw := D.savePdf st.world pid resolvedPath
        some ({ st with world := bw.2 },
          setKey col (fileKey step) (if bw.1 then .vstr resolvedPath else .vnull), none)
    | .printToPDF =>
      if !strTruthy step.value then
        some (st, col, some "printToPDF requires value as target filepath")
      else
        let base := step.value.getD ""
        let resolvedPath := jsOrStr (replaceDataPlaceholders (some base) col) base
        let bw := D.printPdf st.world pid resolvedPath
        some ({ st with world := bw.2 },
          setKey col (fileKey step) (if bw.1 then .vstr resolvedPath else .vnull), none)
    | .downloadFile =>
      execDownload D pid step col scope st
    | .downloadPDF =>
      execDownload D pid step col scope st
where
  /-- The shared `downloadFile`/`downloadPDF` case. -/
  execDownload (D : Driver σ) (pid : Nat) (step : BaseStep) (col : Collector)
      (scope : Option Loc) (st : ExecSt σ) : Option (StepRes σ) :=
    if !strTruthy step.object then
      some (st, col, some "downloadPDF requires object locator")
    else if !strTruthy step.value then
      some (st, col, some "downloadPDF requires value as target filepath")
    else
      let link := scopedLocator pid scope step.object_type (step.object.getD "")
      match D.count st.world link with
      | .error _ => some (st, setKey col (fileKey step) .vnull, none)
      | .ok 0 => some (st, setKey col (fileKey step) .vnull, none)
      | .ok (_ + 1) =>
        let bw := D.downloadFetch st.world link
        if bw.1 then
          let resolvedPath :=
            jsOrStr (replaceDataPlaceholders step.value col) (step.value.getD "")
          some ({ st with world := bw.2 },
            setKey col (fileKey step) (.vstr resolvedPath), none)
        else
          some ({ st with world := bw.2 }, setKey col (fileKey step) .vnull, none)

/-- The fuelled `executeStep`; fuel `0` is exhaustion (`none`). -/
def execStep {σ} (D : Driver σ) (gcb : Bool) : Nat → StepFn σ
  | 0 => fun _ _ _ _ _ => none
  | fuel + 1 => execStepF D gcb (execStep D gcb fuel)

/-- src/step-executor.ts `executeStepList(page, steps, collected)`. -/
def executeStepList {σ} (D : Driver σ) (gcb : Bool) (fuel pid : Nat)
    (steps : List BaseStep) (col : Collector) (st : ExecSt σ) :
    Option (StepRes σ) :=
  runStepList (fun s c stt => execStep D gcb fuel pid s c none stt) steps col st

/-- src/step-executor.ts `executeStepInContext(page, contextElement, step,
collector)`: its own `data` case (context-scoped selector mapping,
`''` — not null — on zero matches and on extraction failure, `value`
reading the `href` attribute, `default` reading inner text), all other
actions delegated to `executeStep`. -/
def executeStepInContext {σ} (D : Driver σ) (gcb : Bool) (fuel pid : Nat)
    (ctxEl : Loc) (step : BaseStep) (col : Collector) (st : ExecSt σ) :
    Option (StepRes σ) :=
  match step.action with
  | .data =>
    let target := ctxTargetLoc ctxEl step
    match D.count st.world target with
    | .error _ => some (st, setKey col (dataKey step) (.vstr ""), none)
    | .ok 0 => some (st, setKey col (dataKey step) (.vstr ""), none)
    | .ok (_ + 1) =>
      match ctxExtract D st.world step target with
      | .error _ => some (st, setKey col (dataKey step) (.vstr ""), none)
      | .ok v => some (st, setKey col (dataKey step) (.vstr v), none)
  | _ => execStep D gcb fuel pid step col none st

/-! ## Tab templates and pagination (src/types.ts, src/tab-executor.ts) -/

structure NextButton where
  object_type : SelectorType
  object : String
  wait : Option Nat

structure ScrollCfg where
  offset : Option Int
  delay : Option Nat

inductive Strategy where
  | next | scroll
deriving DecidableEq, Repr

structure PaginationConfig where
  strategy : Strategy
  nextButton : Option NextButton
  scroll : Option ScrollCfg
  maxPages : Option Nat
  paginationFirst : Option Bool
  paginateAllFirst : Option Bool

structure TabTemplate where
  tab : String
  initSteps : Option (List BaseStep)
  perPageSteps : Option (List BaseStep)
  steps : Option (List BaseStep)
  pagination : Option PaginationConfig

/-- JS truthiness of an optional boolean flag. -/
def truthyOB (b : Option Bool) : Bool := b = some true

/-- JS truthiness of an optional number (`0` is falsy). -/
def truthyON (n : Option Nat) : Bool :=
  match n with
  | some m => !(m = 0)
  | none => false

/-- `pagination.maxPages && pageIndex >= pagination.maxPages`: the guard
is skipped entirely when `maxPages` is absent — or `0`, which is falsy. -/
def maxPagesHit (mp : Option Nat) (pageIndex : Nat) : Bool :=
  match mp with
  | some m => if m = 0 then false else decide (m ≤ pageIndex)
  | none => false

/-- src/tab-executor.ts `runPagination(page, pagination)`: `next` clicks
the next control inside a try/catch that converts every failure —
zero matches, a disabled control, a click rejection, a failed
network-idle wait — into `false` (end of pagination); a truthy configured
wait is a plain timeout; `scroll` always reports `true`. -/
def runPagination {σ} (D : Driver σ) (pid : Nat) (pag : PaginationConfig)
    (w : σ) : Bool × σ :=
  match pag.strategy, pag.nextButton with
  | .next, some nb =>
    let nbLoc := locatorFor (Loc.page pid) (some nb.object_type) nb.object
    match D.count w nbLoc with
    | .error _ => (false, w)
    | .ok 0 => (false, w)
    | .ok (_ + 1) =>
      let disabled := match D.isDisabled w nbLoc with
        | .ok b => b
        | .error _ => false
      if disabled then (false, w)
      else
        match clickModel D w pid (some nb.object_type) nb.object with
        | .error _ => (false, w)
        | .ok w1 =>
          if truthyON nb.wait then (true, w1)
          else
            match D.waitNetworkIdle w1 pid with
            | .ok w2 => (true, w2)
            | .error _ => (false, w1)
  | .next, none => (false, w)
  | .scroll, _ =>
    let offset := match pag.scroll with
      | some sc => sc.offset.getD (D.innerHeight w)
      | none => D.innerHeight w
    (true, D.scrollBy w offset)

/-- The per-page record-assembly loop over the `item_*` keys of a
collected collector: non-empty items are pushed as records; the direct
callback fires only under `onResult && !global.onResultCallback`
(`onRes ∧ ¬gcb`), and `resultIndex` advances only for pushed items. -/
def assembleItems (onRes gcb : Bool) (collected : Collector) :
    List String → Nat → List CValue × List (FlatResult × Nat) × Nat
  | [], ri => ([], [], ri)
  | k :: rest, ri =>
    match lookupKey collected k with
    | some v =>
      if truthyCV v ∧ 0 < cvKeysCount v then
        let emitsHere : List (FlatResult × Nat) :=
          if onRes ∧ !gcb then [(.one (spreadCV v), ri)] else []
        let r := assembleItems onRes gcb collected rest (ri + 1)
        (v :: r.1, emitsHere ++ r.2.1, r.2.2)
      else assembleItems onRes gcb collected rest ri
    | none => assembleItems onRes gcb collected rest ri

/-- Record assembly after one per-page step-list run (both loop shapes of
`executeTab` share this block): nothing for an empty collector; item
records when `item_*` keys exist; otherwise the whole collector is one
record, delivered directly when a callback was supplied. -/
def assembleRecords (onRes gcb : Bool) (collected : Collector)
    (resultIndex : Nat) : List CValue × List (FlatResult × Nat) × Nat :=
  if collected.isEmpty then ([], [], resultIndex)
  else
    let itemKeys := (colKeys collected).filter isItemKey
    if 0 < itemKeys.length then
      assembleItems onRes gcb collected itemKeys resultIndex
    else
      ([.vobj collected],
        if onRes then [(.one collected, resultIndex)] else [],
        resultIndex + 1)

/-- Steps run on every page:
`perPageSteps && perPageSteps.length > 0 ? perPageSteps : (steps ?? [])`. -/
def stepsForPage (tmpl : TabTemplate) : List BaseStep :=
  if 0 < (tmpl.perPageSteps.getD []).length then tmpl.perPageSteps.getD []
  else tmpl.steps.getD []

/-- The body of one default-loop iteration after the optional
advance-first step: run the per-page steps against a fresh collector
(uncaught step errors escape the tab), assemble records, then stop on no
pagination, on the `maxPages` guard, or on a failed collect-then-advance
attempt; `recur` is the next loop iteration. -/
def tabLoopF {σ} (D : Driver σ) (onRes gcb : Bool) (stepFuel pid : Nat)
    (tmpl : TabTemplate)
    (recur : Nat → Nat → List CValue → ExecSt σ →
      Option (ExecSt σ × List CValue × Option Err))
    (pageIndex resultIndex : Nat) (results : List CValue) (st0 : ExecSt σ) :
    Option (ExecSt σ × List CValue × Option Err) :=
  match executeStepList D gcb stepFuel pid (stepsForPage tmpl) []
      { st0 with collects := st0.collects + 1 } with
  | none => none
  | some (st1, _, some e) => some (st1, results, some e)
  | some (st1, collected, none) =>
    let asm := assembleRecords onRes gcb collected resultIndex
    let results' := results ++ asm.1
    let st2 := { st1 with emitted := st1.emitted ++ asm.2.1 }
    match tmpl.pagination with
    | none => some (st2, results', none)
    | some pag =>
      if maxPagesHit pag.maxPages (pageIndex + 1) then
        some (st2, results', none)
      else if truthyOB pag.paginationFirst then
        recur (pageIndex + 1) asm.2.2 results' st2
      else
        let bw := runPagination D pid pag st2.world
        let st3 := { st2 with world := bw.2 }
        if bw.1 then recur (pageIndex + 1) asm.2.2 results' st3
        else some (st3, results', none)

/-- The default `while (true)` page loop of `executeTab`: the optional
advance-first step (after the first page), then one `tabLoopF` iteration.
`loopFuel` bounds the unbounded source loop; the ghost `collects` counter
increments once per per-page step-list run. -/
def tabLoop {σ} (D : Driver σ) (onRes gcb : Bool) (stepFuel pid : Nat)
    (tmpl : TabTemplate) :
    Nat → Nat → Nat → List CValue → ExecSt σ →
      Option (ExecSt σ × List CValue × Option Err)
  | 0, _, _, _, _ => none
  | loopFuel + 1, pageIndex, resultIndex, results, st =>
    let adv1 : Bool × ExecSt σ :=
      match tmpl.pagination with
      | some pag =>
        if truthyOB pag.paginationFirst ∧ 0 < pageIndex then
          let bw := runPagination D pid pag st.world
          (bw.1, { st with world := bw.2 })
        else (true, st)
      | none => (true, st)
    if !adv1.1 then some (adv1.2, results, none)
    else
      tabLoopF D onRes gcb stepFuel pid tmpl
        (tabLoop D onRes gcb stepFuel pid tmpl loopFuel) pageIndex resultIndex
        results adv1.2

/-- The `paginateAllFirst` advance-to-exhaustion loop. -/
def paginateAllLoop {σ} (D : Driver σ) (pid : Nat) (pag : PaginationConfig) :
    Nat → Nat → σ → Option σ
  | 0, _, _ => none
  | fuel + 1, pageIndex, w =>
    if maxPagesHit pag.maxPages pageIndex then some w
    else
      let bw := runPagination D pid pag w
      if bw.1 then paginateAllLoop D pid pag fuel (pageIndex + 1) bw.2
      else some bw.2

/-- src/tab-executor.ts `executeTab(page, template, onResult)`.
`onRes` is whether a streaming callback was supplied; the function
registers the global callback exactly when it is (`gcb := onRes`), runs
`initSteps` once, then either the `paginateAllFirst` shape (advance to
exhaustion, collect once) or the default page loop. -/
def executeTab {σ} (D : Driver σ) (onRes : Bool) (stepFuel loopFuel pid : Nat)
    (tmpl : TabTemplate) (st : ExecSt σ) :
    Option (ExecSt σ × List CValue × Option Err) :=
  let gcb := onRes
  let init : Option (StepRes σ) :=
    if 0 < (tmpl.initSteps.getD []).length then
      executeStepList D gcb stepFuel pid (tmpl.initSteps.getD []) [] st
    else some (st, [], none)
  match init with
  | none => none
  | some (st0, _, some e) => some (st0, [], some e)
  | some (st0, _, none) =>
    match tmpl.pagination with
    | some pag =>
      if truthyOB pag.paginateAllFirst then
        match paginateAllLoop D pid pag loopFuel 0 st0.world with
        | none => none
        | some w1 =>
          match executeStepList D gcb stepFuel pid (stepsForPage tmpl) []
              { st0 with world := w1, collects := st0.collects + 1 } with
          | none => none
          | some (st1, _, some e) => some (st1, [], some e)
          | some (st1, collected, none) =>
            let asm := assembleRecords onRes gcb collected 0
            some ({ st1 with emitted := st1.emitted ++ asm.2.1 }, asm.1, none)
      else tabLoop D onRes gcb stepFuel pid tmpl loopFuel 0 0 [] st0
    | none => tabLoop D onRes gcb stepFuel pid tmpl loopFuel 0 0 [] st0

/-! ## Identity lemmas for the placeholder passes -/

/-- Whether `s` contains the two-character run `aa` anywhere. -/
def hasSub2 (a : Char) : List Char → Bool
  | [] => false
  | [_] => false
  | c :: d :: rest => if c = a ∧ d = a then true else hasSub2 a (d :: rest)

/-- No `\x7b\x7b` anywhere: no placeholder syntax at all. -/
def noBraces (s : String) : Bool := !hasSub2 '\x7b' s.data

theorem expectTwo_eq_none_of_not_hasSub2 {a : Char} {s : List Char}
    (h : hasSub2 a s = false) : expectTwo a s = none := by
  match s with
  | [] => rfl
  | [c] => rfl
  | c :: d :: rest =>
    simp only [hasSub2] at h
    split at h
    · simp at h
    · rename_i hcd
      simp only [expectTwo, if_neg hcd]

theorem hasSub2_tail {a c : Char} {rest : List Char}
    (h : hasSub2 a (c :: rest) = false) : hasSub2 a rest = false := by
  match rest with
  | [] => rfl
  | d :: rest' =>
    simp only [hasSub2] at h
    split at h
    · simp at h
    · exact h

theorem matchIndexTok_none_of_noBraces (tok : List Char) {s : List Char}
    (h : hasSub2 '\x7b' s = false) : matchIndexTok tok s = none := by
  simp [matchIndexTok, expectTwo_eq_none_of_not_hasSub2 h]

theorem matchDataTok_none_of_noBraces {s : List Char}
    (h : hasSub2 '\x7b' s = false) : matchDataTok s = none := by
  simp [matchDataTok, expectTwo_eq_none_of_not_hasSub2 h]

theorem replTokCoreF_id_of_noBraces (tok rep : List Char) :
    ∀ f s, hasSub2 '\x7b' s = false → replTokCoreF tok rep f s = s := by
  intro f
  induction f with
  | zero => intro s _; rfl
  | succ f ih =>
    intro s h
    simp only [replTokCoreF, matchIndexTok_none_of_noBraces tok h]
    cases s with
    | nil => rfl
    | cons c rest =>
      show c :: replTokCoreF tok rep f rest = c :: rest
      rw [ih rest (hasSub2_tail h)]

theorem replaceDataCoreF_id_of_noBraces (col : Collector) :
    ∀ f s, hasSub2 '\x7b' s = false → replaceDataCoreF col f s = s := by
  intro f
  induction f with
  | zero => intro s _; rfl
  | succ f ih =>
    intro s h
    simp only [replaceDataCoreF, matchDataTok_none_of_noBraces h]
    cases s with
    | nil => rfl
    | cons c rest =>
      show c :: replaceDataCoreF col f rest = c :: rest
      rw [ih rest (hasSub2_tail h)]

/-- Whether any match of the `tok` index pattern occurs in `s` (the scan
the replacement pass performs). -/
def indexTokMatchesF (tok : List Char) : Nat → List Char → Bool
  | 0, _ => false
  | f + 1, s =>
    match matchIndexTok tok s with
    | some _ => true
    | none =>
      match s with
      | [] => false
      | _ :: rest => indexTokMatchesF tok f rest

theorem replTokCoreF_id_of_nomatch (tok rep : List Char) :
    ∀ f s, indexTokMatchesF tok f s = false → replTokCoreF tok rep f s = s := by
  intro f
  induction f with
  | zero => intro s _; rfl
  | succ f ih =>
    intro s h
    simp only [indexTokMatchesF] at h
    simp only [replTokCoreF]
    cases hm : matchIndexTok tok s with
    | some rem => rw [hm] at h; simp at h
    | none =>
      rw [hm] at h
      cases s with
      | nil => rfl
      | cons c rest =>
        replace h : indexTokMatchesF tok f rest = false := h
        show c :: replTokCoreF tok rep f rest = c :: rest
        rw [ih rest h]

/-- `s` contains no match of the `tok` pattern nor of the `tok_plus1`
pattern: `replaceIndexPlaceholders` with token `tok` is the identity. -/
def indexTokenFree (tok s : String) : Bool :=
  !indexTokMatchesF tok.data (s.data.length + 1) s.data &&
  !indexTokMatchesF (tok.data ++ ("_plus1" : String).data) (s.data.length + 1) s.data

theorem replaceIndexPlaceholders_id {tok s : String} (i : Nat)
    (h : indexTokenFree tok s = true) :
    replaceIndexPlaceholders (some s) i tok = some s := by
  simp only [indexTokenFree, Bool.and_eq_true, Bool.not_eq_true'] at h
  unfold replaceIndexPlaceholders
  by_cases hs : s = ""
  · simp [hs]
  · simp only [if_neg hs, replTok]
    rw [replTokCoreF_id_of_nomatch _ _ _ _ h.1, replTokCoreF_id_of_nomatch _ _ _ _ h.2]

/-- The keys the data-placeholder scan captures in `s`. -/
def dataTokenKeysF : Nat → List Char → List String
  | 0, _ => []
  | f + 1, s =>
    match matchDataTok s with
    | some mkr => String.mk mkr.2.1 :: dataTokenKeysF f mkr.2.2
    | none =>
      match s with
      | [] => []
      | _ :: rest => dataTokenKeysF f rest

def dataTokenKeys (s : String) : List String :=
  dataTokenKeysF (s.data.length + 1) s.data

theorem expectTwo_eq {c : Char} {s r : List Char} (h : expectTwo c s = some r) :
    s = c :: c :: r := by
  match s with
  | [] => simp [expectTwo] at h
  | [a] => simp [expectTwo] at h
  | a :: b :: rest =>
    simp only [expectTwo] at h
    split at h
    · rename_i hab
      cases h
      rw [hab.1, hab.2]
    · simp at h

theorem matchDataTok_recompose {s m k rem : List Char}
    (h : matchDataTok s = some (m, k, rem)) : m ++ rem = s := by
  simp only [matchDataTok] at h
  split at h
  · exact absurd h (by simp)
  · rename_i rest hopen
    split at h
    · exact absurd h (by simp)
    · rename_i rem' hclose
      split at h
      · exact absurd h (by simp)
      · simp only [Option.some.injEq, Prod.mk.injEq] at h
        obtain ⟨hm, -, hr⟩ := h
        subst hm; subst hr
        have hs := expectTwo_eq hopen
        have hd := expectTwo_eq hclose
        have := List.takeWhile_append_dropWhile
          (p := fun c => !(c = '\x7d')) (l := rest)
        rw [hs]
        simp only [List.cons_append, List.cons.injEq, true_and]
        rw [List.append_assoc]
        simp only [List.cons_append, List.nil_append]
        rw [← hd, this]

theorem replaceDataCoreF_id_of_unmatched (col : Collector) :
    ∀ f s, (∀ k ∈ dataTokenKeysF f s,
        lookupKey col k = none ∨ lookupKey col k = some .vnull) →
    replaceDataCoreF col f s = s := by
  intro f
  induction f with
  | zero => intro s _; rfl
  | succ f ih =>
    intro s h
    simp only [replaceDataCoreF]
    cases hm : matchDataTok s with
    | some mkr =>
      obtain ⟨m, k, rem⟩ := mkr
      have hk : lookupKey col ⟨k⟩ = none ∨ lookupKey col ⟨k⟩ = some .vnull := by
        apply h
        simp [dataTokenKeysF, hm]
      have hrec : replaceDataCoreF col f rem = rem := by
        apply ih
        intro k' hk'
        apply h
        simp [dataTokenKeysF, hm, hk']
      have hre := matchDataTok_recompose hm
      rcases hk with hk | hk <;> simp [hk, hrec, hre]
    | none =>
      cases s with
      | nil => rfl
      | cons c rest =>
        have hrec : replaceDataCoreF col f rest = rest := by
          apply ih
          intro k' hk'
          apply h
          simp [dataTokenKeysF, hm, hk']
        show c :: replaceDataCoreF col f rest = c :: rest
        rw [hrec]

theorem replaceDataPlaceholders_id {s : String} {col : Collector}
    (h : ∀ k ∈ dataTokenKeys s,
      lookupKey col k = none ∨ lookupKey col k = some .vnull) :
    replaceDataPlaceholders (some s) col = some s := by
  unfold replaceDataPlaceholders
  by_cases hs : s = ""
  · simp [hs]
  · simp only [if_neg hs]
    rw [replaceDataCoreF_id_of_unmatched col _ _ h]

theorem noBraces_replaceData {s : String} {col : Collector}
    (h : noBraces s = true) : replaceDataPlaceholders (some s) col = some s := by
  simp only [noBraces, Bool.not_eq_true'] at h
  unfold replaceDataPlaceholders
  by_cases hs : s = ""
  · simp [hs]
  · simp only [if_neg hs]
    rw [replaceDataCoreF_id_of_noBraces col _ _ h]

theorem noBraces_replaceIndex {s tok : String} (i : Nat)
    (h : noBraces s = true) : replaceIndexPlaceholders (some s) i tok = some s := by
  simp only [noBraces, Bool.not_eq_true'] at h
  unfold replaceIndexPlaceholders
  by_cases hs : s = ""
  · simp [hs]
  · simp only [if_neg hs, replTok]
    rw [replTokCoreF_id_of_noBraces _ _ _ _ h, replTokCoreF_id_of_noBraces _ _ _ _ h]

/-- **C10.** Placeholder substitution is an identity on strings with no
matching `\x7b\x7b…\x7d\x7d` token: `undefined`/empty input is returned
unchanged by both resolvers; a string with no brace syntax is returned
unchanged by both; a string whose captured keys are all undefined or null
in the collector is returned unchanged by `replaceDataPlaceholders`; a
string with no match of the index token (e.g. a different token name) is
returned unchanged by `replaceIndexPlaceholders`; both functions are
therefore idempotent on such inputs. -/
theorem placeholder_identity_and_idempotence :
    (∀ (c : Collector) (i : Nat) (tok : String),
      replaceDataPlaceholders none c = none ∧
      replaceIndexPlaceholders none i tok = none ∧
      replaceDataPlaceholders (some "") c = some "" ∧
      replaceIndexPlaceholders (some "") i tok = some "") ∧
    (∀ (s : String) (c : Collector) (i : Nat) (tok : String),
      noBraces s = true →
      replaceDataPlaceholders (some s) c = some s ∧
      replaceIndexPlaceholders (some s) i tok = some s) ∧
    (∀ (s : String) (c : Collector),
      (∀ k ∈ dataTokenKeys s,
        lookupKey c k = none ∨ lookupKey c k = some .vnull) →
      replaceDataPlaceholders (some s) c = some s ∧
      replaceDataPlaceholders (replaceDataPlaceholders (some s) c) c =
        replaceDataPlaceholders (some s) c) ∧
    (∀ (s tok : String) (i : Nat),
      indexTokenFree tok s = true →
      replaceIndexPlaceholders (some s) i tok = some s ∧
      replaceIndexPlaceholders (replaceIndexPlaceholders (some s) i tok) i tok =
        replaceIndexPlaceholders (some s) i tok) := by
  refine ⟨fun c i tok => ⟨rfl, rfl, rfl, rfl⟩, ?_, ?_, ?_⟩
  · intro s c i tok h
    exact ⟨noBraces_replaceData h, noBraces_replaceIndex i h⟩
  · intro s c h
    have h1 := replaceDataPlaceholders_id h
    exact ⟨h1, by rw [h1]; exact h1⟩
  · intro s tok i h
    have h1 := replaceIndexPlaceholders_id i h
    exact ⟨h1, by rw [h1]; exact h1⟩

/-- Witness for C10 at concrete inputs. -/
theorem placeholder_identity_and_idempotence_witness :
    replaceDataPlaceholders (some "report 7") [("k", .vstr "v")] = some "report 7" ∧
    replaceIndexPlaceholders (some "row-\x7b\x7bj\x7d\x7d") 4 "i" =
      some "row-\x7b\x7bj\x7d\x7d" ∧
    replaceDataPlaceholders (some "f/\x7b\x7bmissing\x7d\x7d.pdf")
      [("k", .vstr "v")] = some "f/\x7b\x7bmissing\x7d\x7d.pdf" := by
  refine ⟨(placeholder_identity_and_idempotence.2.1 "report 7"
      [("k", .vstr "v")] 0 "i" (by decide)).1,
    ((placeholder_identity_and_idempotence.2.2.2) "row-\x7b\x7bj\x7d\x7d" "i" 4
      (by decide)).1,
    (placeholder_identity_and_idempotence.2.2.1 "f/\x7b\x7bmissing\x7d\x7d.pdf"
      [("k", .vstr "v")] ?_).1⟩
  intro k hk
  have he : dataTokenKeys "f/\x7b\x7bmissing\x7d\x7d.pdf" = ["missing"] := rfl
  rw [he] at hk
  simp only [List.mem_singleton] at hk
  subst hk
  exact Or.inl rfl

/-! ## C5: token confinement of `cloneStepWithIndex` -/

/-- An optional string field free of the `tok` index pattern. -/
def optIndexFree (tok : String) : Option String → Bool
  | none => true
  | some s => indexTokenFree tok s

mutual

/-- Every rewritten field of the step (`object`, `value`, `key`,
recursively through `subSteps`) is free of the `tok` index pattern. -/
def stepIndexFree (tok : String) : BaseStep → Bool
  | .mk _ _ _ ob _ v k _ _ _ subs _ _ =>
    optIndexFree tok ob && optIndexFree tok v && optIndexFree tok k &&
      stepsIndexFree tok subs

def stepsIndexFree (tok : String) : List BaseStep → Bool
  | [] => true
  | s :: rest => stepIndexFree tok s && stepsIndexFree tok rest

end

theorem optIndexFree_id {tok : String} {o : Option String} (i : Nat)
    (h : optIndexFree tok o = true) : replaceIndexPlaceholders o i tok = o := by
  cases o with
  | none => rfl
  | some s => exact replaceIndexPlaceholders_id i h

mutual

theorem cloneStepWithIndex_id_of_free (tok : String) :
    ∀ (s : BaseStep), stepIndexFree tok s = true →
      ∀ idx, cloneStepWithIndex s idx tok = s
  | .mk i d ot ob ac v k dt w t subs asc ik, h, idx => by
    simp only [stepIndexFree, Bool.and_eq_true] at h
    obtain ⟨⟨⟨hob, hv⟩, hk⟩, hsubs⟩ := h
    simp only [cloneStepWithIndex]
    rw [optIndexFree_id idx hob, optIndexFree_id idx hv, optIndexFree_id idx hk,
      cloneSubSteps_id_of_free tok subs hsubs idx]

theorem cloneSubSteps_id_of_free (tok : String) :
    ∀ (l : List BaseStep), stepsIndexFree tok l = true →
      ∀ idx, cloneSubSteps l idx tok = l
  | [], _, _ => rfl
  | s :: rest, h, idx => by
    simp only [stepsIndexFree, Bool.and_eq_true] at h
    simp only [cloneSubSteps]
    rw [cloneStepWithIndex_id_of_free tok s h.1 idx,
      cloneSubSteps_id_of_free tok rest h.2 idx]

end

/-- **C5.** `cloneStepWithIndex` with token `'i'` leaves a step whose
`object`/`value`/`key` fields (recursively through `subSteps`) contain no
`i`-token verbatim — in particular every `\x7b\x7bj\x7d\x7d` /
`\x7b\x7bj_plus1\x7d\x7d` occurrence survives — so a later clone with
token `'j'` and index `5` acts exactly as cloning the original with `'j'`,
and the `j` passes substitute `"5"` for `\x7b\x7bj\x7d\x7d` and `"6"`
for `\x7b\x7bj_plus1\x7d\x7d`. -/
theorem cloneStepWithIndex_token_confinement :
    (∀ (s : BaseStep) (n : Nat), stepIndexFree "i" s = true →
      cloneStepWithIndex s n "i" = s ∧
      cloneStepWithIndex (cloneStepWithIndex s 0 "i") 5 "j" =
        cloneStepWithIndex s 5 "j") ∧
    indexTokenFree "i" "\x7b\x7bj\x7d\x7d" = true ∧
    indexTokenFree "i" "\x7b\x7bj_plus1\x7d\x7d" = true ∧
    replaceIndexPlaceholders (some "\x7b\x7bj\x7d\x7d") 5 "j" = some "5" ∧
    replaceIndexPlaceholders (some "\x7b\x7bj_plus1\x7d\x7d") 5 "j" = some "6" := by
  refine ⟨?_, by decide, by decide, rfl, rfl⟩
  intro s n h
  have h0 := cloneStepWithIndex_id_of_free "i" s h
  exact ⟨h0 n, by rw [h0 0]⟩

/-- Witness for C5: a nested step tree whose sub-step carries `j`-tokens
in `object`, `value` and `key`; the `i`-clone leaves it verbatim and the
subsequent `j`-clone at index 5 substitutes `5`/`6`. -/
theorem cloneStepWithIndex_token_confinement_witness :
    stepIndexFree "i"
      (.mk "outer" none (some .cls) (some "row") .foreach none none none none
        none
        [.mk "inner" none (some .tag) (some "a-\x7b\x7bj\x7d\x7d") .data
          (some "v\x7b\x7bj_plus1\x7d\x7d") (some "k\x7b\x7bj\x7d\x7d") none
          none none [] none none]
        none (some "j")) = true ∧
    cloneStepWithIndex
      (.mk "outer" none (some .cls) (some "row") .foreach none none none none
        none
        [.mk "inner" none (some .tag) (some "a-\x7b\x7bj\x7d\x7d") .data
          (some "v\x7b\x7bj_plus1\x7d\x7d") (some "k\x7b\x7bj\x7d\x7d") none
          none none [] none none]
        none (some "j")) 0 "i" =
      (.mk "outer" none (some .cls) (some "row") .foreach none none none none
        none
        [.mk "inner" none (some .tag) (some "a-\x7b\x7bj\x7d\x7d") .data
          (some "v\x7b\x7bj_plus1\x7d\x7d") (some "k\x7b\x7bj\x7d\x7d") none
          none none [] none none]
        none (some "j")) ∧
    cloneStepWithIndex
      (.mk "inner" none (some .tag) (some "a-\x7b\x7bj\x7d\x7d") .data
        (some "v\x7b\x7bj_plus1\x7d\x7d") (some "k\x7b\x7bj\x7d\x7d") none
        none none [] none none) 5 "j" =
      (.mk "inner" none (some .tag) (some "a-5") .data (some "v6")
        (some "k5") none none none [] none none) := by
  refine ⟨by decide, ?_, rfl⟩
  exact (cloneStepWithIndex_token_confinement.1 _ 0 (by decide)).1

/-! ## Concrete fixtures for witnesses and counterexamples -/

/-- A benign driver over a trivial world: empty page (zero matches),
every interaction succeeds. -/
def baseDriver : Driver Unit := {
  count := fun _ _ => .ok 0
  waitForAttached := fun _ _ _ => .ok ()
  textContent := fun _ _ => .ok (some "T")
  innerHTML := fun _ _ => .ok "<p>"
  inputValue := fun _ _ => .ok "V"
  innerText := fun _ _ => .ok "I"
  getAttr := fun _ _ _ => .ok none
  isVisible := fun _ _ => .ok true
  isDisabled := fun _ _ => .ok false
  clickLoc := fun w _ => .ok w
  typeText := fun w _ _ => .ok w
  scrollIntoView := fun w _ => .ok w
  scrollBy := fun w _ => w
  innerHeight := fun _ => 600
  goto := fun w _ _ => .ok w
  reload := fun w _ => .ok w
  waitNetworkIdle := fun w _ => .ok w
  pageUrl := fun _ _ => "http://base/"
  resolveUrl := fun href base => base ++ href
  newPage := fun w => (1, w)
  closePage := fun w _ => w
  openByClick := fun _ _ => .error "no page event"
  downloadEvent := fun w _ => (false, w)
  downloadFetch := fun w _ => (false, w)
  savePdf := fun w _ _ => (false, w)
  printPdf := fun w _ _ => (false, w) }

/-- A `data` step extracting text into key `"k"`. -/
def fixDataStep : BaseStep :=
  .mk "d1" none (some .cls) (some "x") .data none (some "k") (some .text)
    none none [] none none

/-- A `navigate` step with no `value`: throws `'Url is required'`. -/
def fixNavStep : BaseStep :=
  .mk "n" none none none .navigate none none none none none [] none none

/-- The same failing `navigate` step marked `terminateonerror`. -/
def fixNavStepT : BaseStep :=
  .mk "n" none none none .navigate none none none none (some true) [] none none

/-- The initial interpreter state over the trivial world. -/
def st0 : ExecSt Unit := ⟨(), [], 0⟩

/-! ## C3: `data`-family soft-failure behavior -/

/-- **C3 (amended).** The `data` case of `executeStep` — including
execution scoped to a foreach context element (`scope`) — never raises:
it always returns without error, writing under `step.key || step.id ||
'data'` either null or the extracted string; when the probed selector
matches zero elements it writes exactly null.  The `data` case of
`executeStepInContext`, however, writes the empty string (not null) on
both the zero-match and the extraction-failure paths, and never raises
either. -/
theorem data_family_soft_failure {σ : Type} (D : Driver σ) (gcb : Bool)
    (fuel pid : Nat) (step : BaseStep) (col : Collector) (scope : Option Loc)
    (ctxEl : Loc) (st : ExecSt σ) (ha : step.action = .data) :
    (∃ st' cv, execStep D gcb (fuel + 1) pid step col scope st =
        some (st', setKey col (dataKey step) cv, none) ∧
      (cv = .vnull ∨ ∃ v, cv = .vstr v)) ∧
    (D.count st.world
        (scopedLocator pid scope step.object_type (dataCheckSelector step)) =
          .ok 0 →
      execStep D gcb (fuel + 1) pid step col scope st =
        some (st, setKey col (dataKey step) .vnull, none)) ∧
    (∃ st' v, executeStepInContext D gcb fuel pid ctxEl step col st =
        some (st', setKey col (dataKey step) (.vstr v), none)) ∧
    (D.count st.world (ctxTargetLoc ctxEl step) = .ok 0 →
      executeStepInContext D gcb fuel pid ctxEl step col st =
        some (st, setKey col (dataKey step) (.vstr ""), none)) := by
  refine ⟨?_, ?_, ?_, ?_⟩
  · simp only [execStep, execStepF, ha]
    cases hc : D.count st.world
        (scopedLocator pid scope step.object_type (dataCheckSelector step)) with
    | error e => exact ⟨st, .vnull, rfl, Or.inl rfl⟩
    | ok n =>
      cases n with
      | zero => exact ⟨st, .vnull, rfl, Or.inl rfl⟩
      | succ m =>
        cases he : dataExtract D st.world step
            (scopedLocator pid scope step.object_type (dataCheckSelector step)) with
        | error e => exact ⟨st, .vnull, rfl, Or.inl rfl⟩
        | ok v => exact ⟨st, .vstr v, rfl, Or.inr ⟨v, rfl⟩⟩
  · intro hc
    simp only [execStep, execStepF, ha, hc]
  · simp only [executeStepInContext, ha]
    cases hc : D.count st.world (ctxTargetLoc ctxEl step) with
    | error e => exact ⟨st, "", rfl⟩
    | ok n =>
      cases n with
      | zero => exact ⟨st, "", rfl⟩
      | succ m =>
        cases he : ctxExtract D st.world step (ctxTargetLoc ctxEl step) with
        | error e => exact ⟨st, "", rfl⟩
        | ok v => exact ⟨st, v, rfl⟩
  · intro hc
    simp only [executeStepInContext, ha, hc]

/-- Witness for the amended C3: the zero-match paths on the trivial
driver — `executeStep` records null, `executeStepInContext` records
`""`. -/
theorem data_family_soft_failure_witness :
    execStep baseDriver false 2 0 fixDataStep [] none st0 =
      some (st0, [("k", .vnull)], none) ∧
    executeStepInContext baseDriver false 2 0 (Loc.page 0) fixDataStep [] st0 =
      some (st0, [("k", .vstr "")], none) := by
  have h := data_family_soft_failure baseDriver false 1 0 fixDataStep [] none
    (Loc.page 0) st0 rfl
  exact ⟨h.2.1 rfl, h.2.2.2 rfl⟩

/-- Counterexample to C3 as stated: the `executeStepInContext` data path
(cited by the claim) stores the empty string — not null — on a zero-match
selector. -/
theorem ctx_data_zero_match_stores_empty_string :
    executeStepInContext baseDriver false 2 0 (Loc.page 0) fixDataStep [] st0 =
      some (st0, [("k", .vstr "")], none) ∧
    CValue.vstr "" ≠ CValue.vnull :=
  ⟨rfl, fun h => CValue.noConfusion h⟩

/-! ## C1: the `terminateonerror` containment policy -/

/-- **C1.** In `executeStepList`, a step that throws is swallowed and the
list continues with the next step when the step's `terminateonerror` is
not truthy, and the error is rethrown (ending the list) when it is; the
same policy governs each cloned sub-step inside a foreach iteration's
sub-step loop. -/
theorem terminate_on_error_policy {σ : Type} (D : Driver σ) (gcb : Bool)
    (fuel pid : Nat) (s : BaseStep) (rest : List BaseStep) (col : Collector)
    (st st' : ExecSt σ) (col' : Collector) (e : Err) :
    (execStep D gcb fuel pid s col none st = some (st', col', some e) →
      (teo s = false →
        executeStepList D gcb fuel pid (s :: rest) col st =
          executeStepList D gcb fuel pid rest col' st') ∧
      (teo s = true →
        executeStepList D gcb fuel pid (s :: rest) col st =
          some (st', col', some e))) ∧
    (∀ idx ikey cur,
      execStep D gcb fuel pid (cloneStepWithIndex s idx ikey) col (some cur) st =
          some (st', col', some e) →
      (teo (cloneStepWithIndex s idx ikey) = false →
        runSubStepsCloned (fun s2 c sc stt => execStep D gcb fuel pid s2 c sc stt)
            idx ikey cur (s :: rest) col st =
          runSubStepsCloned (fun s2 c sc stt => execStep D gcb fuel pid s2 c sc stt)
            idx ikey cur rest col' st') ∧
      (teo (cloneStepWithIndex s idx ikey) = true →
        runSubStepsCloned (fun s2 c sc stt => execStep D gcb fuel pid s2 c sc stt)
            idx ikey cur (s :: rest) col st =
          some (st', col', some e))) := by
  constructor
  · intro h
    constructor
    · intro hteo
      simp only [executeStepList, runStepList, h, hteo, Bool.false_eq_true,
        if_false]
    · intro hteo
      simp only [executeStepList, runStepList, h, hteo, if_true]
  · intro idx ikey cur h
    constructor
    · intro hteo
      simp only [runSubStepsCloned, h, hteo, Bool.false_eq_true, if_false]
    · intro hteo
      simp only [runSubStepsCloned, h, hteo, if_true]

/-- Witness for C1: a `navigate` step with no URL throws; without
`terminateonerror` the list proceeds to the following `data` step, with
it the error is rethrown.  The same on the foreach sub-step loop. -/
theorem terminate_on_error_policy_witness :
    (executeStepList baseDriver false 2 0 [fixNavStep, fixDataStep] [] st0 =
      executeStepList baseDriver false 2 0 [fixDataStep] [] st0) ∧
    (executeStepList baseDriver false 2 0 [fixNavStepT, fixDataStep] [] st0 =
      some (st0, [], some "Url is required")) ∧
    (runSubStepsCloned
        (fun s2 c sc stt => execStep baseDriver false 2 0 s2 c sc stt)
        0 "i" (Loc.page 0) [fixNavStep, fixDataStep] [] st0 =
      runSubStepsCloned
        (fun s2 c sc stt => execStep baseDriver false 2 0 s2 c sc stt)
        0 "i" (Loc.page 0) [fixDataStep] [] st0) := by
  refine ⟨?_, ?_, ?_⟩
  · exact ((terminate_on_error_policy baseDriver false 2 0 fixNavStep
      [fixDataStep] [] st0 st0 [] "Url is required").1 rfl).1 rfl
  · exact ((terminate_on_error_policy baseDriver false 2 0 fixNavStepT
      [fixDataStep] [] st0 st0 [] "Url is required").1 rfl).2 rfl
  · exact ((terminate_on_error_policy baseDriver false 2 0 fixNavStep
      [fixDataStep] [] st0 st0 [] "Url is required").2 0 "i" (Loc.page 0)
      rfl).1 rfl

/-! ## C2: foreach `item_*` key production -/

theorem isPrefixOf_append (l t : List Char) : l.isPrefixOf (l ++ t) = true := by
  induction l with
  | nil => simp [List.isPrefixOf]
  | cons c cs ih => simp [List.isPrefixOf, ih]

theorem isItemKey_itemKey (i : Nat) : isItemKey (itemKey i) = true := by
  simp only [isItemKey, itemKey, strStartsWith, String.data_append]
  exact isPrefixOf_append _ _

theorem itemKey_inj {a b : Nat} (h : itemKey a = itemKey b) : a = b := by
  apply natToStr_injective
  have hd := congrArg String.data h
  simp only [itemKey, String.data_append] at hd
  have := List.append_cancel_left hd
  cases hs : natToStr a with
  | mk la =>
    cases ht : natToStr b with
    | mk lb =>
      rw [hs, ht] at this
      simp only [hs, ht] at *
      exact congrArg String.mk this

theorem colKeys_setKey_of_not_mem {c : Collector} {k : String} (v : CValue)
    (h : k ∉ colKeys c) : colKeys (setKey c k v) = colKeys c ++ [k] := by
  induction c with
  | nil => rfl
  | cons kv rest ih =>
    obtain ⟨k', v'⟩ := kv
    simp only [colKeys, List.map_cons, List.mem_cons] at h
    push_neg at h
    simp only [setKey, if_neg (Ne.symm h.1), colKeys, List.map_cons,
      List.cons_append]
    exact congrArg (fun l => k' :: l) (ih (by simpa [colKeys] using h.2))

/-- The foreach loop invariant: starting from a parent whose `item_*`
keys are exactly `item_0 … item_(idx-1)` in order, a completed run of the
remaining iterations extends them to `item_0 … item_(idx+remaining-1)`. -/
theorem foreachIters_item_keys {σ : Type} (D : Driver σ) (gcb : Bool)
    (f : BaseStep → Collector → Option Loc → ExecSt σ → Option (StepRes σ))
    (locAll : Loc) (subs : List BaseStep) (asc : Option Bool) (ikey : String) :
    ∀ (remaining idx : Nat) (col : Collector) (st : ExecSt σ)
      (st' : ExecSt σ) (col' : Collector),
      (colKeys col).filter isItemKey = (List.range idx).map itemKey →
      foreachIters D gcb f locAll subs asc ikey remaining idx col st =
        some (st', col', none) →
      (colKeys col').filter isItemKey = (List.range (idx + remaining)).map itemKey := by
  intro remaining
  induction remaining with
  | zero =>
    intro idx col st st' col' hinv h
    simp only [foreachIters] at h
    cases h
    simpa using hinv
  | succ r ih =>
    intro idx col st st' col' hinv h
    simp only [foreachIters] at h
    split at h
    · exact absurd h (by simp)
    · rename_i w1 hscroll
      split at h
      · exact absurd h (by simp)
      · rename_i st2 itemCol e hsub
        exact absurd h (by simp)
      · rename_i st2 itemCol hsub
        have hfresh : itemKey idx ∉ colKeys col := by
          intro hmem
          have hfil : itemKey idx ∈ (colKeys col).filter isItemKey :=
            List.mem_filter.2 ⟨hmem, isItemKey_itemKey idx⟩
          rw [hinv] at hfil
          obtain ⟨j, hj, hjk⟩ := List.mem_map.1 hfil
          have := itemKey_inj hjk
          subst this
          exact absurd (List.mem_range.1 hj) (lt_irrefl _)
        have hnext : (colKeys (setKey col (itemKey idx) (.vobj itemCol))).filter
            isItemKey = (List.range (idx + 1)).map itemKey := by
          rw [colKeys_setKey_of_not_mem _ hfresh, List.filter_append, hinv,
            List.range_succ, List.map_append]
          simp [isItemKey_itemKey]
        have := ih (idx + 1) _ _ _ _ hnext h
        rwa [show idx + 1 + r = idx + (r + 1) by omega] at this

/-- **C2 (amended).** A foreach over `N` matched elements, run against a
parent collector that has no `item_*` keys yet, completes with the
parent's `item_*` keys being exactly `item_0 … item_(N-1)` in ascending
order — every key is assigned even when sub-steps of its iteration throw
softly, since only a `terminateonerror` sub-step (or a scroll failure)
aborts the loop, and then the foreach does not complete.  Pre-existing
`item_*` keys (e.g. from an earlier sibling foreach) are not removed, so
the unconditioned claim fails. -/
theorem foreach_produces_item_keys {σ : Type} (D : Driver σ) (gcb : Bool)
    (fuel pid : Nat) (step : BaseStep) (col : Collector) (scope : Option Loc)
    (st st' : ExecSt σ) (col' : Collector) (N : Nat)
    (ha : step.action = .foreach)
    (hinit : (colKeys col).filter isItemKey = [])
    (hcount : D.count st.world
      (scopedLocator pid scope step.object_type (step.object.getD "")) = .ok N)
    (hexec : execStep D gcb (fuel + 1) pid step col scope st =
      some (st', col', none)) :
    (colKeys col').filter isItemKey = (List.range N).map itemKey := by
  simp only [execStep, execStepF, ha] at hexec
  by_cases hobj : strTruthy step.object
  · by_cases hsubs : step.subSteps.isEmpty
    · simp [hobj, hsubs] at hexec
    · simp only [hobj, hsubs, Bool.not_true, Bool.false_eq_true, if_false,
        hcount] at hexec
      have := foreachIters_item_keys D gcb _ _ _ _ _ N 0 col st st' col'
        (by simpa using hinit) hexec
      simpa using this
  · simp [hobj] at hexec

/-- A `wait` step: no driver calls, no collector writes. -/
def fixWaitStep : BaseStep :=
  .mk "w" none none none .wait none none none none none [] none none

/-- Driver with two matches of `.rowA` and one of `.rowB`. -/
def drvAB : Driver Unit :=
  { baseDriver with
    count := fun _ loc =>
      match loc with
      | .sub _ s =>
        if s = ".rowA" then .ok 2 else if s = ".rowB" then .ok 1 else .ok 0
      | _ => .ok 0 }

def feA : BaseStep :=
  .mk "feA" none (some .cls) (some "rowA") .foreach none none none none none
    [fixWaitStep] none none

def feB : BaseStep :=
  .mk "feB" none (some .cls) (some "rowB") .foreach none none none none none
    [fixWaitStep] none none

/-- Driver with two matches of everything. -/
def drvTwo : Driver Unit := { baseDriver with count := fun _ _ => .ok 2 }

/-- A foreach whose sub-steps include a softly failing `navigate`. -/
def feSoft : BaseStep :=
  .mk "fe" none (some .cls) (some "row") .foreach none none none none none
    [fixNavStep, fixDataStep] none none

/-- Witness for the amended C2: a foreach over 2 matches whose first
sub-step throws softly in every iteration still assigns exactly
`item_0, item_1`. -/
theorem foreach_produces_item_keys_witness :
    (colKeys [(("item_0" : String), CValue.vobj [("k", .vstr "T")]),
      ("item_1", CValue.vobj [("k", .vstr "T")])]).filter isItemKey =
      (List.range 2).map itemKey :=
  foreach_produces_item_keys drvTwo false 2 0 feSoft [] none st0 st0
    [("item_0", CValue.vobj [("k", .vstr "T")]),
     ("item_1", CValue.vobj [("k", .vstr "T")])] 2 rfl rfl rfl rfl

/-- Counterexample to C2 as stated: after a sibling foreach matched 2
elements, a foreach matching `N = 1` completes with parent `item_*` keys
`item_0, item_1` — not exactly `item_0`. -/
theorem foreach_item_keys_counterexample :
    executeStepList drvAB false 3 0 [feA, feB] [] st0 =
      some (st0, [("item_0", .vobj []), ("item_1", .vobj [])], none) ∧
    drvAB.count () (scopedLocator 0 none (some .cls) "rowB") = .ok 1 ∧
    (colKeys [(("item_0" : String), CValue.vobj []), ("item_1", .vobj [])]).filter
        isItemKey ≠ (List.range 1).map itemKey :=
  ⟨rfl, rfl, by decide⟩

/-! ## Collector lemmas (context seeding, merge, flatten) -/

theorem lookupKey_seedItemCollector (col : Collector) (k : String) :
    lookupKey (seedItemCollector col) k =
      if isItemKey k = true then none else lookupKey col k := by
  induction col with
  | nil => simp [seedItemCollector, lookupKey]
  | cons kv rest ih =>
    obtain ⟨k', v'⟩ := kv
    by_cases hik' : isItemKey k' = true
    · have hseed : seedItemCollector ((k', v') :: rest) = seedItemCollector rest := by
        simp [seedItemCollector, hik']
      rw [hseed, ih]
      by_cases hkk : k' = k
      · subst hkk
        simp [lookupKey, hik']
      · simp [lookupKey, hkk]
    · have hseed : seedItemCollector ((k', v') :: rest) =
          (k', v') :: seedItemCollector rest := by
        simp [seedItemCollector, hik']
      rw [hseed]
      by_cases hkk : k' = k
      · subst hkk
        simp [lookupKey, hik']
      · simp [lookupKey, hkk, ih]

theorem seed_setKey_item {col : Collector} {k : String} (v : CValue)
    (hik : isItemKey k = true) :
    seedItemCollector (setKey col k v) = seedItemCollector col := by
  induction col with
  | nil => simp [setKey, seedItemCollector, hik]
  | cons kv rest ih =>
    obtain ⟨k', v'⟩ := kv
    by_cases hkk : k' = k
    · subst hkk
      simp [setKey, seedItemCollector, hik]
    · have hcons : ∀ (l : Collector), seedItemCollector ((k', v') :: l) =
          if (!isItemKey k') = true then (k', v') :: seedItemCollector l
          else seedItemCollector l := by
        intro l
        simp [seedItemCollector, List.filter_cons]
      simp only [setKey, if_neg hkk]
      rw [hcons (setKey rest k v), hcons rest, ih]

theorem mem_colKeys_setKey {c : Collector} {k' k : String} (v : CValue)
    (h : k' ∈ colKeys c) : k' ∈ colKeys (setKey c k v) := by
  induction c with
  | nil => simp [colKeys] at h
  | cons kv rest ih =>
    obtain ⟨k0, v0⟩ := kv
    simp only [colKeys, List.map_cons, List.mem_cons] at h
    by_cases hk : k0 = k
    · subst hk
      rw [show setKey ((k0, v0) :: rest) k0 v = (k0, v) :: rest from by
        simp [setKey]]
      rcases h with h | h
      · simp [colKeys, h]
      · simp only [colKeys, List.map_cons, List.mem_cons]
        exact Or.inr h
    · rcases h with h | h
      · simp [setKey, hk, colKeys, h]
      · simp only [setKey, if_neg hk, colKeys, List.map_cons, List.mem_cons]
        exact Or.inr (ih h)

theorem mem_colKeys_mergeObj_left {a : Collector} (b : Collector) {k : String}
    (h : k ∈ colKeys a) : k ∈ colKeys (mergeObj a b) := by
  induction b generalizing a with
  | nil => simpa [mergeObj] using h
  | cons kv rest ih =>
    have hm : mergeObj a (kv :: rest) = mergeObj (setKey a kv.1 kv.2) rest := rfl
    rw [hm]
    exact ih (mem_colKeys_setKey _ h)

theorem lookupKey_setKey_ne {c : Collector} {k k' : String} (v : CValue)
    (h : k' ≠ k) : lookupKey (setKey c k v) k' = lookupKey c k' := by
  induction c with
  | nil => simp [setKey, lookupKey, Ne.symm h]
  | cons kv rest ih =>
    obtain ⟨k0, v0⟩ := kv
    by_cases hk : k0 = k
    · subst hk
      simp [setKey, lookupKey, Ne.symm h]
    · simp only [setKey, if_neg hk, lookupKey]
      split
      · rfl
      · exact ih

theorem lookupKey_mergeObj_of_none {a b : Collector} {k : String}
    (h : lookupKey b k = none) : lookupKey (mergeObj a b) k = lookupKey a k := by
  induction b generalizing a with
  | nil => rfl
  | cons kv rest ih =>
    obtain ⟨k0, v0⟩ := kv
    simp only [lookupKey] at h
    by_cases hk : k0 = k
    · simp [if_pos hk] at h
    · rw [if_neg hk] at h
      have hm : mergeObj a ((k0, v0) :: rest) = mergeObj (setKey a k0 v0) rest := rfl
      rw [hm, ih h, lookupKey_setKey_ne v0 (fun hh => hk hh.symm)]

theorem mem_insertByIdx {k x : String} : ∀ {l : List String},
    x ∈ insertByIdx k l ↔ x = k ∨ x ∈ l := by
  intro l
  induction l with
  | nil => simp [insertByIdx]
  | cons y ys ih =>
    simp only [insertByIdx]
    split
    · simp
    · simp only [List.mem_cons, ih]
      tauto

theorem mem_sortByIdx {x : String} : ∀ {l : List String},
    x ∈ sortByIdx l ↔ x ∈ l := by
  intro l
  induction l with
  | nil => simp [sortByIdx]
  | cons y ys ih => simp [sortByIdx, mem_insertByIdx, ih]

/-- Every record of a `.many` flatten result is the context (the
non-`item_*` entries) merged with the spread of one truthy, non-empty
`item_*` value. -/
theorem flatten_many_records {c : Collector} {rs : List Collector}
    (h : flattenNestedForeachResults c = .many rs) :
    ∀ r ∈ rs, ∃ nk nv, isItemKey nk = true ∧ lookupKey c nk = some nv ∧
      r = mergeObj (c.filter (fun kv => !(isItemKey kv.1))) (spreadCV nv) := by
  simp only [flattenNestedForeachResults] at h
  split at h
  · rename_i hpos
    cases h
    intro r hr
    obtain ⟨k, hk, hmk⟩ := List.mem_filterMap.1 hr
    have hkmem : k ∈ (colKeys c).filter isItemKey := mem_sortByIdx.1 hk
    have hitem : isItemKey k = true := (List.mem_filter.1 hkmem).2
    split at hmk
    · rename_i v hv
      split at hmk
      · simp only [Option.some.injEq] at hmk
        exact ⟨k, v, hitem, hv, hmk.symm⟩
      · exact absurd hmk (by simp)
    · exact absurd hmk (by simp)
  · exact absurd h (by simp)

/-! ## Preservation: the interpreter never drops collector keys and never
touches the ghost `collects` counter -/

/-- Keys of the given collector survive (only `setKey`/`Object.assign`
writes happen), and the ghost collection counter is untouched. -/
def KeysCollectsMono {σ : Type} (f : StepFn σ) : Prop :=
  ∀ pid s col scope st st' col' e, f pid s col scope st = some (st', col', e) →
    (∀ k, k ∈ colKeys col → k ∈ colKeys col') ∧ st'.collects = st.collects

theorem runStepList_mono {σ : Type}
    {f : BaseStep → Collector → ExecSt σ → Option (StepRes σ)}
    (hf : ∀ s col st st' col' e, f s col st = some (st', col', e) →
      (∀ k, k ∈ colKeys col → k ∈ colKeys col') ∧ st'.collects = st.collects) :
    ∀ steps col st st' col' e, runStepList f steps col st = some (st', col', e) →
      (∀ k, k ∈ colKeys col → k ∈ colKeys col') ∧ st'.collects = st.collects := by
  intro steps
  induction steps with
  | nil =>
    intro col st st' col' e h
    simp only [runStepList] at h
    cases h
    exact ⟨fun _ hk => hk, rfl⟩
  | cons s rest ih =>
    intro col st st' col' e h
    simp only [runStepList] at h
    split at h
    · exact absurd h (by simp)
    · rename_i st1 col1 e1 heq
      split at h
      · cases h
        exact hf _ _ _ _ _ _ heq
      · have h1 := hf _ _ _ _ _ _ heq
        have h2 := ih _ _ _ _ _ h
        exact ⟨fun k hk => h2.1 k (h1.1 k hk), by rw [h2.2, h1.2]⟩
    · rename_i st1 col1 heq
      have h1 := hf _ _ _ _ _ _ heq
      have h2 := ih _ _ _ _ _ h
      exact ⟨fun k hk => h2.1 k (h1.1 k hk), by rw [h2.2, h1.2]⟩

theorem runSubStepsCloned_mono {σ : Type}
    {f : BaseStep → Collector → Option Loc → ExecSt σ → Option (StepRes σ)}
    (hf : ∀ s col sc st st' col' e, f s col sc st = some (st', col', e) →
      (∀ k, k ∈ colKeys col → k ∈ colKeys col') ∧ st'.collects = st.collects)
    (idx : Nat) (ikey : String) (cur : Loc) :
    ∀ subs col st st' col' e,
      runSubStepsCloned f idx ikey cur subs col st = some (st', col', e) →
      (∀ k, k ∈ colKeys col → k ∈ colKeys col') ∧ st'.collects = st.collects := by
  intro subs
  induction subs with
  | nil =>
    intro col st st' col' e h
    simp only [runSubStepsCloned] at h
    cases h
    exact ⟨fun _ hk => hk, rfl⟩
  | cons s rest ih =>
    intro col st st' col' e h
    simp only [runSubStepsCloned] at h
    split at h
    · exact absurd h (by simp)
    · rename_i st1 col1 e1 heq
      split at h
      · cases h
        exact hf _ _ _ _ _ _ _ heq
      · have h1 := hf _ _ _ _ _ _ _ heq
        have h2 := ih _ _ _ _ _ h
        exact ⟨fun k hk => h2.1 k (h1.1 k hk), by rw [h2.2, h1.2]⟩
    · rename_i st1 col1 heq
      have h1 := hf _ _ _ _ _ _ _ heq
      have h2 := ih _ _ _ _ _ h
      exact ⟨fun k hk => h2.1 k (h1.1 k hk), by rw [h2.2, h1.2]⟩

theorem foreachIters_mono {σ : Type} {D : Driver σ} {gcb : Bool}
    {f : BaseStep → Collector → Option Loc → ExecSt σ → Option (StepRes σ)}
    (hf : ∀ s col sc st st' col' e, f s col sc st = some (st', col', e) →
      (∀ k, k ∈ colKeys col → k ∈ colKeys col') ∧ st'.collects = st.collects)
    (locAll : Loc) (subs : List BaseStep) (asc : Option Bool) (ikey : String) :
    ∀ remaining idx col st st' col' e,
      foreachIters D gcb f locAll subs asc ikey remaining idx col st =
        some (st', col', e) →
      (∀ k, k ∈ colKeys col → k ∈ colKeys col') ∧ st'.collects = st.collects := by
  intro remaining
  induction remaining with
  | zero =>
    intro idx col st st' col' e h
    simp only [foreachIters] at h
    cases h
    exact ⟨fun _ hk => hk, rfl⟩
  | succ r ih =>
    intro idx col st st' col' e h
    simp only [foreachIters] at h
    split at h
    · cases h
      exact ⟨fun _ hk => hk, rfl⟩
    · rename_i w1 hscroll
      split at h
      · exact absurd h (by simp)
      · rename_i st2 itemCol e1 hsub
        cases h
        have hs := runSubStepsCloned_mono hf idx ikey (Loc.nth locAll idx) subs
          _ _ _ _ _ hsub
        exact ⟨fun _ hk => hk, hs.2⟩
      · rename_i st2 itemCol hsub
        have hs := runSubStepsCloned_mono hf idx ikey (Loc.nth locAll idx) subs
          _ _ _ _ _ hsub
        have hrec := ih _ _ _ _ _ _ h
        refine ⟨fun k hk => hrec.1 k (mem_colKeys_setKey _ hk), ?_⟩
        rw [hrec.2]
        have hemit : ∀ (c : Prop) [Decidable c] (x),
            (if c then { st2 with emitted := x } else st2).collects =
              st2.collects := by
          intro c _ x
          split <;> rfl
        rw [hemit]
        exact hs.2

theorem execDownload_mono {σ : Type} (D : Driver σ) (pid : Nat) (s : BaseStep)
    (col : Collector) (scope : Option Loc) (st st' : ExecSt σ)
    (col' : Collector) (e : Option Err)
    (h : execStepF.execDownload D pid s col scope st = some (st', col', e)) :
    (∀ k, k ∈ colKeys col → k ∈ colKeys col') ∧ st'.collects = st.collects := by
  simp only [execStepF.execDownload] at h
  split at h
  · cases h; exact ⟨fun _ hk => hk, rfl⟩
  · split at h
    · cases h; exact ⟨fun _ hk => hk, rfl⟩
    · split at h
      · cases h; exact ⟨fun k hk => mem_colKeys_setKey _ hk, rfl⟩
      · cases h; exact ⟨fun k hk => mem_colKeys_setKey _ hk, rfl⟩
      · split at h <;> (cases h; exact ⟨fun k hk => mem_colKeys_setKey _ hk, rfl⟩)

theorem execStepF_mono {σ : Type} (D : Driver σ) (gcb : Bool) {recur : StepFn σ}
    (hrec : KeysCollectsMono recur) : KeysCollectsMono (execStepF D gcb recur) := by
  intro pid s col scope st st' col' e h
  cases ha : s.action <;> simp only [execStepF, ha] at h
  case navigate => split at h <;> (cases h; exact ⟨fun _ hk => hk, rfl⟩)
  case input => split at h <;> (cases h; exact ⟨fun _ hk => hk, rfl⟩)
  case click =>
    split at h
    · cases h; exact ⟨fun _ hk => hk, rfl⟩
    · cases h; exact ⟨fun _ hk => hk, rfl⟩
    · split at h <;> (cases h; exact ⟨fun _ hk => hk, rfl⟩)
  case data =>
    split at h
    · cases h; exact ⟨fun k hk => mem_colKeys_setKey _ hk, rfl⟩
    · cases h; exact ⟨fun k hk => mem_colKeys_setKey _ hk, rfl⟩
    · split at h <;> (cases h; exact ⟨fun k hk => mem_colKeys_setKey _ hk, rfl⟩)
  case scroll => cases h; exact ⟨fun _ hk => hk, rfl⟩
  case wait => cases h; exact ⟨fun _ hk => hk, rfl⟩
  case reload => split at h <;> (cases h; exact ⟨fun _ hk => hk, rfl⟩)
  case eventBaseDownload =>
    split at h
    · cases h; exact ⟨fun _ hk => hk, rfl⟩
    · cases h; exact ⟨fun k hk => mem_colKeys_setKey _ hk, rfl⟩
  case savePDF =>
    split at h
    · cases h; exact ⟨fun _ hk => hk, rfl⟩
    · cases h; exact ⟨fun k hk => mem_colKeys_setKey _ hk, rfl⟩
  case printToPDF =>
    split at h
    · cases h; exact ⟨fun _ hk => hk, rfl⟩
    · cases h; exact ⟨fun k hk => mem_colKeys_setKey _ hk, rfl⟩
  case downloadFile => exact execDownload_mono D pid s col scope st st' col' e h
  case downloadPDF => exact execDownload_mono D pid s col scope st st' col' e h
  case foreach =>
    split at h
    · cases h; exact ⟨fun _ hk => hk, rfl⟩
    · split at h
      · cases h; exact ⟨fun _ hk => hk, rfl⟩
      · split at h
        · cases h; exact ⟨fun _ hk => hk, rfl⟩
        · exact foreachIters_mono
            (fun s2 c sc stt st2 c2 e2 hh => hrec pid s2 c sc stt st2 c2 e2 hh)
            _ _ _ _ _ _ _ _ _ _ _ h
  case openPage =>
    split at h
    · cases h; exact ⟨fun _ hk => hk, rfl⟩
    · split at h
      · cases h; exact ⟨fun _ hk => hk, rfl⟩
      · split at h
        · cases h; exact ⟨fun _ hk => hk, rfl⟩
        · cases h; exact ⟨fun _ hk => hk, rfl⟩
        · split at h
          · cases h; exact ⟨fun _ hk => hk, rfl⟩
          · split at h
            · split at h
              · cases h; exact ⟨fun _ hk => hk, rfl⟩
              · split at h
                · exact absurd h (by simp)
                · rename_i st2 inner e1 hsub
                  cases h
                  have := runStepList_mono
                    (fun s2 c2 stt st3 c3 e3 hh =>
                      hrec _ s2 c2 none stt st3 c3 e3 hh) _ _ _ _ _ _ hsub
                  exact ⟨fun _ hk => hk, this.2⟩
                · rename_i st2 inner hsub
                  cases h
                  have := runStepList_mono
                    (fun s2 c2 stt st3 c3 e3 hh =>
                      hrec _ s2 c2 none stt st3 c3 e3 hh) _ _ _ _ _ _ hsub
                  exact ⟨fun k hk => mem_colKeys_mergeObj_left _ hk, this.2⟩
            · split at h
              · cases h; exact ⟨fun _ hk => hk, rfl⟩
              · split at h
                · exact absurd h (by simp)
                · rename_i st2 inner e1 hsub
                  cases h
                  have := runStepList_mono
                    (fun s2 c2 stt st3 c3 e3 hh =>
                      hrec _ s2 c2 none stt st3 c3 e3 hh) _ _ _ _ _ _ hsub
                  exact ⟨fun _ hk => hk, this.2⟩
                · rename_i st2 inner hsub
                  cases h
                  have := runStepList_mono
                    (fun s2 c2 stt st3 c3 e3 hh =>
                      hrec _ s2 c2 none stt st3 c3 e3 hh) _ _ _ _ _ _ hsub
                  exact ⟨fun k hk => mem_colKeys_mergeObj_left _ hk, this.2⟩

theorem execStep_mono {σ : Type} (D : Driver σ) (gcb : Bool) :
    ∀ fuel, KeysCollectsMono (execStep D gcb fuel) := by
  intro fuel
  induction fuel with
  | zero =>
    intro pid s col scope st st' col' e h
    exact absurd h (by simp [execStep])
  | succ fuel ih => exact execStepF_mono D gcb ih

/-! ## C6: context seeding and context preservation through flattening -/

theorem foreachIters_seed {σ : Type} (D : Driver σ) (gcb : Bool)
    (f : BaseStep → Collector → Option Loc → ExecSt σ → Option (StepRes σ))
    (locAll : Loc) (subs : List BaseStep) (asc : Option Bool) (ikey : String) :
    ∀ remaining idx col st st' col' e,
      foreachIters D gcb f locAll subs asc ikey remaining idx col st =
        some (st', col', e) →
      seedItemCollector col' = seedItemCollector col := by
  intro remaining
  induction remaining with
  | zero =>
    intro idx col st st' col' e h
    simp only [foreachIters] at h
    cases h
    rfl
  | succ r ih =>
    intro idx col st st' col' e h
    simp only [foreachIters] at h
    split at h
    · cases h; rfl
    · rename_i w1 hscroll
      split at h
      · exact absurd h (by simp)
      · cases h; rfl
      · rename_i st2 itemCol hsub
        have := ih _ _ _ _ _ _ h
        rw [this, seed_setKey_item _ (isItemKey_itemKey idx)]

theorem mem_colKeys_of_lookup {c : Collector} {k : String} {v : CValue}
    (h : lookupKey c k = some v) : k ∈ colKeys c := by
  induction c with
  | nil => simp [lookupKey] at h
  | cons kv rest ih =>
    obtain ⟨k0, v0⟩ := kv
    simp only [lookupKey] at h
    by_cases hk : k0 = k
    · simp [colKeys, hk]
    · rw [if_neg hk] at h
      simp only [colKeys, List.map_cons, List.mem_cons]
      exact Or.inr (ih h)

/-- **C6.** (i) The item collector a foreach iteration is seeded with
holds exactly the parent's non-`item_*` (context) entries; (ii) the
foreach loop never changes the parent's non-`item_*` portion, so the seed
is the same at the start of every iteration; (iii) the interpreter never
removes a collector key, so every seeded context key is still present in
the item collector when it is flattened; (iv) flattening either returns
the item collector itself, or merges the context (its non-`item_*`
entries) into each nested item record — each such record contains every
context key, with its value passed through unmodified unless the nested
item itself shadows the key. -/
theorem foreach_context_seeding_and_flattening :
    (∀ (col : Collector) (k : String),
      lookupKey (seedItemCollector col) k =
        if isItemKey k = true then none else lookupKey col k) ∧
    (∀ (σ : Type) (D : Driver σ) (gcb : Bool)
      (f : BaseStep → Collector → Option Loc → ExecSt σ → Option (StepRes σ))
      (locAll : Loc) (subs : List BaseStep) (asc : Option Bool) (ikey : String)
      (remaining idx : Nat) (col : Collector) (st st' : ExecSt σ)
      (col' : Collector) (e : Option Err),
      foreachIters D gcb f locAll subs asc ikey remaining idx col st =
        some (st', col', e) →
      seedItemCollector col' = seedItemCollector col) ∧
    (∀ (σ : Type) (D : Driver σ) (gcb : Bool) (fuel pid : Nat) (s : BaseStep)
      (col : Collector) (scope : Option Loc) (st st' : ExecSt σ)
      (col' : Collector) (e : Option Err),
      execStep D gcb fuel pid s col scope st = some (st', col', e) →
      ∀ k, k ∈ colKeys col → k ∈ colKeys col') ∧
    (∀ (c : Collector) (k : String) (v : CValue), isItemKey k = false →
      lookupKey c k = some v →
      (flattenNestedForeachResults c = .one c ∨
       ∃ rs, flattenNestedForeachResults c = .many rs ∧
         ∀ r ∈ rs, ∃ nk nv, isItemKey nk = true ∧ lookupKey c nk = some nv ∧
           r = mergeObj (seedItemCollector c) (spreadCV nv) ∧
           k ∈ colKeys r ∧
           (lookupKey (spreadCV nv) k = none → lookupKey r k = some v))) := by
  refine ⟨lookupKey_seedItemCollector, ?_, ?_, ?_⟩
  · intro σ D gcb f locAll subs asc ikey remaining idx col st st' col' e h
    exact foreachIters_seed D gcb f locAll subs asc ikey remaining idx col st
      st' col' e h
  · intro σ D gcb fuel pid s col scope st st' col' e h
    exact (execStep_mono D gcb fuel pid s col scope st st' col' e h).1
  · intro c k v hik hv
    cases hfl : flattenNestedForeachResults c with
    | one r =>
      left
      have hfl2 := hfl
      have hrc : r = c := by
        simp only [flattenNestedForeachResults] at hfl2
        split at hfl2
        · exact absurd hfl2 (by simp)
        · cases hfl2; rfl
      rw [hrc]
    | many rs =>
      right
      refine ⟨rs, rfl, ?_⟩
      intro r hr
      obtain ⟨nk, nv, hnk, hnv, hrm⟩ := flatten_many_records hfl r hr
      have hctx : lookupKey (seedItemCollector c) k = some v := by
        rw [lookupKey_seedItemCollector, if_neg (by simp [hik]), hv]
      refine ⟨nk, nv, hnk, hnv, hrm, ?_, ?_⟩
      · rw [hrm]
        exact mem_colKeys_mergeObj_left _ (mem_colKeys_of_lookup hctx)
      · intro hnone
        rw [hrm, lookupKey_mergeObj_of_none hnone]
        exact hctx

/-- Witness for C6 at concrete inputs: a parent with one context key and
one stale item key; a concrete foreach run over two matches; a concrete
interpreter step; a concrete flatten. -/
theorem foreach_context_seeding_and_flattening_witness :
    (lookupKey (seedItemCollector [("ctx", .vstr "c"), ("item_0", .vobj [])])
        "ctx" = if isItemKey "ctx" = true then none
          else lookupKey [("ctx", .vstr "c"), ("item_0", .vobj [])] "ctx") ∧
    (seedItemCollector
        [(("ctx" : String), CValue.vstr "c"),
         ("item_0", .vobj [("ctx", .vstr "c"), ("k", .vstr "T")]),
         ("item_1", .vobj [("ctx", .vstr "c"), ("k", .vstr "T")])] =
      seedItemCollector [(("ctx" : String), CValue.vstr "c")]) ∧
    ((("a" : String) ∈ colKeys [("a", CValue.vnull), ("k", .vstr "T")])) ∧
    (flattenNestedForeachResults
        [("ctx", .vstr "c"), ("item_0", .vobj [("x", .vstr "1")])] = .one
          [("ctx", .vstr "c"), ("item_0", .vobj [("x", .vstr "1")])] ∨
     ∃ rs, flattenNestedForeachResults
        [("ctx", .vstr "c"), ("item_0", .vobj [("x", .vstr "1")])] = .many rs ∧
       ∀ r ∈ rs, ∃ nk nv, isItemKey nk = true ∧
         lookupKey [("ctx", .vstr "c"), ("item_0", .vobj [("x", .vstr "1")])]
           nk = some nv ∧
         r = mergeObj (seedItemCollector
           [("ctx", .vstr "c"), ("item_0", .vobj [("x", .vstr "1")])])
           (spreadCV nv) ∧
         ("ctx" : String) ∈ colKeys r ∧
         (lookupKey (spreadCV nv) "ctx" = none →
           lookupKey r "ctx" = some (.vstr "c"))) := by
  refine ⟨foreach_context_seeding_and_flattening.1 _ _, ?_, ?_, ?_⟩
  · exact foreach_context_seeding_and_flattening.2.1 Unit drvTwo false
      (fun s c sc stt => execStep drvTwo false 2 0 s c sc stt)
      (Loc.sub (Loc.page 0) ".row") [fixDataStep] none "i" 2 0
      [("ctx", .vstr "c")] st0 st0
      [(("ctx" : String), CValue.vstr "c"),
       ("item_0", .vobj [("ctx", .vstr "c"), ("k", .vstr "T")]),
       ("item_1", .vobj [("ctx", .vstr "c"), ("k", .vstr "T")])] none rfl
  · exact foreach_context_seeding_and_flattening.2.2.1 Unit drvTwo false 2 0
      fixDataStep [("a", CValue.vnull)] none st0 st0
      [("a", CValue.vnull), ("k", .vstr "T")] none rfl "a" (by simp [colKeys])
  · exact foreach_context_seeding_and_flattening.2.2.2
      [("ctx", .vstr "c"), ("item_0", .vobj [("x", .vstr "1")])] "ctx"
      (.vstr "c") rfl rfl

/-! ## C8: `next` pagination ends softly -/

theorem executeStepList_mono {σ : Type} (D : Driver σ) (gcb : Bool)
    (fuel pid : Nat) (steps : List BaseStep) (col : Collector) (st st' : ExecSt σ)
    (col' : Collector) (e : Option Err)
    (h : executeStepList D gcb fuel pid steps col st = some (st', col', e)) :
    (∀ k, k ∈ colKeys col → k ∈ colKeys col') ∧ st'.collects = st.collects :=
  runStepList_mono
    (fun s c stt st2 c2 e2 hh => execStep_mono D gcb fuel pid s c none stt st2 c2 e2 hh)
    steps col st st' col' e h

/-- **C8.** With strategy `next`, the advance attempt reports `false` —
never an error — when the next-button selector count rejects, matches
zero elements, resolves to a disabled control, or the click rejects; and
in the page loop a `false` advance ends the loop normally, returning the
records collected so far. -/
theorem next_pagination_stops_softly :
    (∀ (σ : Type) (D : Driver σ) (pid : Nat) (pag : PaginationConfig)
      (nb : NextButton) (w : σ),
      pag.strategy = .next → pag.nextButton = some nb →
      (∀ e, D.count w (locatorFor (Loc.page pid) (some nb.object_type) nb.object) =
          .error e → runPagination D pid pag w = (false, w)) ∧
      (D.count w (locatorFor (Loc.page pid) (some nb.object_type) nb.object) =
          .ok 0 → runPagination D pid pag w = (false, w)) ∧
      (∀ n, D.count w (locatorFor (Loc.page pid) (some nb.object_type) nb.object) =
          .ok (n + 1) →
        D.isDisabled w (locatorFor (Loc.page pid) (some nb.object_type) nb.object) =
          .ok true →
        runPagination D pid pag w = (false, w)) ∧
      (∀ n e, D.count w (locatorFor (Loc.page pid) (some nb.object_type) nb.object) =
          .ok (n + 1) →
        D.isDisabled w (locatorFor (Loc.page pid) (some nb.object_type) nb.object) =
          .ok false →
        clickModel D w pid (some nb.object_type) nb.object = .error e →
        runPagination D pid pag w = (false, w))) ∧
    (∀ (σ : Type) (D : Driver σ) (onRes gcb : Bool) (stepFuel pid : Nat)
      (tmpl : TabTemplate) (loopFuel pageIndex resultIndex : Nat)
      (results : List CValue) (st : ExecSt σ) (pag : PaginationConfig)
      (st1 : ExecSt σ) (collected : Collector) (w' : σ),
      tmpl.pagination = some pag →
      truthyOB pag.paginationFirst = false →
      executeStepList D gcb stepFuel pid (stepsForPage tmpl) []
        { st with collects := st.collects + 1 } = some (st1, collected, none) →
      maxPagesHit pag.maxPages (pageIndex + 1) = false →
      runPagination D pid pag st1.world = (false, w') →
      tabLoop D onRes gcb stepFuel pid tmpl (loopFuel + 1) pageIndex resultIndex
          results st =
        some ({ st1 with
            emitted := st1.emitted ++
              (assembleRecords onRes gcb collected resultIndex).2.1,
            world := w' },
          results ++ (assembleRecords onRes gcb collected resultIndex).1,
          none)) := by
  constructor
  · intro σ D pid pag nb w hstrat hnb
    refine ⟨?_, ?_, ?_, ?_⟩
    · intro e hc
      simp only [runPagination, hstrat, hnb, hc]
    · intro hc
      simp only [runPagination, hstrat, hnb, hc]
    · intro n hc hd
      simp only [runPagination, hstrat, hnb, hc, hd, if_true]
    · intro n e hc hd hclick
      simp only [runPagination, hstrat, hnb, hc, hd, hclick, Bool.false_eq_true,
        if_false]
  · intro σ D onRes gcb stepFuel pid tmpl loopFuel pageIndex resultIndex results
      st pag st1 collected w' hpag hpf hexec hmax hadv
    simp only [tabLoop, tabLoopF, hpag, hpf, Bool.false_eq_true, false_and,
      if_false, Bool.not_false, if_true, hexec, hmax, hadv, Bool.not_true]

/-- Witness for C8: the trivial driver has no next button — the advance
yields `false` and a single-page `next` tab finishes normally. -/
theorem next_pagination_stops_softly_witness :
    runPagination baseDriver 0
      { strategy := .next,
        nextButton := some { object_type := .cls, object := "nx", wait := none },
        scroll := none, maxPages := none, paginationFirst := none,
        paginateAllFirst := none } () = (false, ()) ∧
    tabLoop baseDriver false false 2 0
      { tab := "t", initSteps := none, perPageSteps := some [fixWaitStep],
        steps := none,
        pagination := some
          { strategy := .next,
            nextButton := some
              { object_type := .cls, object := "nx", wait := none },
            scroll := none, maxPages := none, paginationFirst := none,
            paginateAllFirst := none } } 5 0 0 [] st0 =
      some ({ st0 with collects := 1, emitted := [], world := () }, [], none) := by
  constructor
  · exact ((next_pagination_stops_softly.1 Unit baseDriver 0 _ _ () rfl rfl).2.1) rfl
  · exact next_pagination_stops_softly.2 Unit baseDriver false false 2 0 _ 4 0 0
      [] st0 _ { st0 with collects := 1 } [] () rfl rfl rfl rfl rfl

/-! ## C9: the `open` step's navigation-failure and success paths -/

/-- **C9 (amended).** When the child-page navigation of an `open` step
rejects, the sub-steps do not run and nothing is merged — but the error
is caught by the open step's own catch and rethrown only when the open
step itself is marked `terminateonerror` (only then does the enclosing
list's policy see it); it is swallowed by default.  On the success path
the sub-steps run against the new page with a collector seeded from the
parent's non-`item_*` context, the child collector is merged back into
the parent, and the child page is closed. -/
theorem open_navigation_policy {σ : Type} (D : Driver σ) (gcb : Bool)
    (fuel pid : Nat) (step : BaseStep) (col : Collector) (scope : Option Loc)
    (st : ExecSt σ) (n : Nat) (h : String)
    (ha : step.action = .openPage)
    (hobj : strTruthy step.object = true)
    (hsubs : step.subSteps.isEmpty = false)
    (hcount : D.count st.world
      (scopedLocator pid scope step.object_type (step.object.getD "")) =
        .ok (n + 1))
    (hattr : D.getAttr st.world
      (scopedLocator pid scope step.object_type (step.object.getD "")) "href" =
        .ok (some h))
    (htr : strTruthy (some h) = true)
    (hss : strStartsWith h "//" = false)
    (hhttp : strStartsWith h "http" = true) :
    (∀ e, D.goto (D.newPage st.world).2 (D.newPage st.world).1 h = .error e →
      execStep D gcb (fuel + 1) pid step col scope st =
        some ({ st with world := (D.newPage st.world).2 }, col,
          if teo step then some e else none)) ∧
    (∀ w2 st2 inner,
      D.goto (D.newPage st.world).2 (D.newPage st.world).1 h = .ok w2 →
      runStepList
          (fun s c stt => execStep D gcb fuel (D.newPage st.world).1 s c none stt)
          step.subSteps (seedItemCollector col) { st with world := w2 } =
        some (st2, inner, none) →
      execStep D gcb (fuel + 1) pid step col scope st =
        some ({ st2 with world := D.closePage st2.world (D.newPage st.world).1 },
          mergeObj col inner, none)) := by
  constructor
  · intro e hgoto
    simp only [execStep, execStepF, ha, hobj, hsubs, Bool.not_true,
      Bool.false_eq_true, if_false, hcount, hattr, htr, if_true,
      Option.getD_some, hss, hhttp, hgoto]
  · intro w2 st2 inner hgoto hrun
    simp only [execStep, execStepF, ha, hobj, hsubs, Bool.not_true,
      Bool.false_eq_true, if_false, hcount, hattr, htr, if_true,
      Option.getD_some, hss, hhttp, hgoto, hrun]

/-- An `open` step over selector `lnk` with one data sub-step. -/
def fixOpenStep : BaseStep :=
  .mk "o" none (some .cls) (some "lnk") .openPage none none none none none
    [fixDataStep] none none

/-- Driver where the link resolves but the child navigation rejects. -/
def drvOpenFail : Driver Unit :=
  { baseDriver with
    count := fun _ _ => .ok 1
    getAttr := fun _ _ _ => .ok (some "http://x/")
    goto := fun _ _ _ => .error "navfail" }

/-- Driver where the open step succeeds end to end. -/
def drvOpenOk : Driver Unit :=
  { baseDriver with
    count := fun _ _ => .ok 1
    getAttr := fun _ _ _ => .ok (some "http://x/") }

/-- Witness for the amended C9: navigation failure without
`terminateonerror` returns without error and without running sub-steps;
the success path merges the child's data back. -/
theorem open_navigation_policy_witness :
    (execStep drvOpenFail false 3 0 fixOpenStep [("a", .vstr "1")] none st0 =
      some ({ st0 with world := () }, [("a", .vstr "1")],
        if teo fixOpenStep then some "navfail" else none)) ∧
    (execStep drvOpenOk false 3 0 fixOpenStep [("a", .vstr "1")] none st0 =
      some ({ st0 with world := () },
        mergeObj [("a", .vstr "1")] [("a", .vstr "1"), ("k", .vstr "T")], none)) := by
  constructor
  · exact (open_navigation_policy drvOpenFail false 2 0 fixOpenStep
      [("a", .vstr "1")] none st0 0 "http://x/" rfl rfl rfl rfl rfl rfl rfl
      rfl).1 "navfail" rfl
  · exact (open_navigation_policy drvOpenOk false 2 0 fixOpenStep
      [("a", .vstr "1")] none st0 0 "http://x/" rfl rfl rfl rfl rfl rfl rfl
      rfl).2 () { st0 with world := () }
      [("a", .vstr "1"), ("k", .vstr "T")] rfl rfl

/-- Counterexample to C9 as stated: with `terminateonerror` unset, the
navigation failure does **not** propagate out of the `open` step — the
step returns normally (error channel `none`) and only skips its
sub-steps. -/
theorem open_navigation_swallowed_counterexample :
    execStep drvOpenFail false 3 0 fixOpenStep [("a", .vstr "1")] none st0 =
      some (st0, [("a", .vstr "1")], none) ∧
    fixOpenStep.terminateonerror = none :=
  ⟨rfl, rfl⟩

/-! ## C4: `maxPages` bounds per-page collections -/

theorem tabLoopF_collects_bound {σ : Type} (D : Driver σ) (onRes gcb : Bool)
    (stepFuel pid : Nat) (tmpl : TabTemplate) (pag : PaginationConfig) (m : Nat)
    (hpag : tmpl.pagination = some pag) (hm : pag.maxPages = some m)
    (hm0 : m ≠ 0)
    {recur : Nat → Nat → List CValue → ExecSt σ →
      Option (ExecSt σ × List CValue × Option Err)}
    (hrec : ∀ pageIndex resultIndex results st out,
      recur pageIndex resultIndex results st = some out → pageIndex < m →
      out.1.collects ≤ st.collects + (m - pageIndex)) :
    ∀ pageIndex resultIndex results st0 out,
      tabLoopF D onRes gcb stepFuel pid tmpl recur pageIndex resultIndex
        results st0 = some out →
      pageIndex < m → out.1.collects ≤ st0.collects + (m - pageIndex) := by
  intro pageIndex resultIndex results st0 out h hlt
  simp only [tabLoopF, hpag] at h
  split at h
  · exact absurd h (by simp)
  · rename_i st1 c1 e1 heq
    cases h
    have h1 := (executeStepList_mono _ _ _ _ _ _ _ _ _ _ heq).2
    simp only [h1]
    omega
  · rename_i st1 collected heq
    have h1 := (executeStepList_mono _ _ _ _ _ _ _ _ _ _ heq).2
    split at h
    · cases h
      simp only [h1]
      omega
    · rename_i hmaxF
      have hlt2 : pageIndex + 1 < m := by
        rw [hm] at hmaxF
        simp only [maxPagesHit, if_neg hm0, decide_eq_true_eq] at hmaxF
        omega
      split at h
      · have := hrec _ _ _ _ _ h hlt2
        simp only [h1] at this ⊢
        omega
      · split at h
        · have := hrec _ _ _ _ _ h hlt2
          simp only [h1] at this ⊢
          omega
        · cases h
          simp only [h1]
          omega

theorem tabLoop_collects_bound {σ : Type} (D : Driver σ) (onRes gcb : Bool)
    (stepFuel pid : Nat) (tmpl : TabTemplate) (pag : PaginationConfig) (m : Nat)
    (hpag : tmpl.pagination = some pag) (hm : pag.maxPages = some m)
    (hm0 : m ≠ 0) :
    ∀ loopFuel pageIndex resultIndex results st out,
      tabLoop D onRes gcb stepFuel pid tmpl loopFuel pageIndex resultIndex
        results st = some out →
      pageIndex < m → out.1.collects ≤ st.collects + (m - pageIndex) := by
  intro loopFuel
  induction loopFuel with
  | zero =>
    intro pageIndex resultIndex results st out h _
    exact absurd h (by simp [tabLoop])
  | succ f ih =>
    intro pageIndex resultIndex results st out h hlt
    simp only [tabLoop, hpag] at h
    by_cases hc : truthyOB pag.paginationFirst = true ∧ 0 < pageIndex
    · rw [if_pos hc] at h
      rcases hbw : runPagination D pid pag st.world with ⟨ok, w2⟩
      rw [hbw] at h
      cases ok
      · simp only [Bool.not_false, if_true] at h
        cases h
        simp only []
        omega
      · simp only [Bool.not_true, Bool.false_eq_true, if_false] at h
        have := tabLoopF_collects_bound D onRes gcb stepFuel pid tmpl pag m
          hpag hm hm0 ih _ _ _ _ _ h hlt
        exact this
    · rw [if_neg hc] at h
      simp only [Bool.not_true, Bool.false_eq_true, if_false] at h
      exact tabLoopF_collects_bound D onRes gcb stepFuel pid tmpl pag m hpag
        hm hm0 ih _ _ _ _ _ h hlt

/-- **C4 (amended).** With pagination configured and `maxPages = m ≥ 1`,
`executeTab` runs the per-page step list (counted by the ghost `collects`
field) at most `m` times — for `m = 2`, at most twice even if the next
control stays clickable forever.  The `m ≥ 1` restriction is forced:
`maxPages = 0` is numerically falsy, so the guard
`pagination.maxPages && pageIndex >= maxPages` never fires and `0` acts
as "unset" rather than as a bound. -/
theorem executeTab_respects_maxPages {σ : Type} (D : Driver σ) (onRes : Bool)
    (stepFuel loopFuel pid : Nat) (tmpl : TabTemplate) (st : ExecSt σ)
    (out : ExecSt σ × List CValue × Option Err) (pag : PaginationConfig)
    (m : Nat) (hpag : tmpl.pagination = some pag) (hm : pag.maxPages = some m)
    (hm0 : m ≠ 0)
    (h : executeTab D onRes stepFuel loopFuel pid tmpl st = some out) :
    out.1.collects ≤ st.collects + m := by
  simp only [executeTab, hpag] at h
  have hinit : ∀ (st1 : ExecSt σ) (c1 : Collector) (e1 : Option Err),
      (if 0 < (tmpl.initSteps.getD []).length then
        executeStepList D onRes stepFuel pid (tmpl.initSteps.getD []) [] st
      else some (st, [], none)) = some (st1, c1, e1) →
      st1.collects = st.collects := by
    intro st1 c1 e1 hh
    split at hh
    · exact (executeStepList_mono _ _ _ _ _ _ _ _ _ _ hh).2
    · cases hh; rfl
  split at h
  · exact absurd h (by simp)
  · rename_i st1 c1 e1 heq
    cases h
    have := hinit _ _ _ heq
    simp only [this]
    omega
  · rename_i st1 c1 heq
    have h1 := hinit _ _ _ heq
    split at h
    · split at h
      · exact absurd h (by simp)
      · rename_i w1 hploop
        split at h
        · exact absurd h (by simp)
        · rename_i st2 c2 e2 heq2
          cases h
          have := (executeStepList_mono _ _ _ _ _ _ _ _ _ _ heq2).2
          simp only [this, h1]
          omega
        · rename_i st2 c2 heq2
          cases h
          have := (executeStepList_mono _ _ _ _ _ _ _ _ _ _ heq2).2
          simp only [this, h1]
          omega
    · have := tabLoop_collects_bound D onRes onRes stepFuel pid tmpl pag m hpag
        hm hm0 loopFuel 0 0 [] st1 out h (Nat.pos_of_ne_zero hm0)
      simp only [h1] at this
      omega

/-- A driver over a click-counting world: the next button exists until it
has been clicked three times. -/
def countingDriver : Driver Nat := {
  count := fun w _ => .ok (if w < 3 then 1 else 0)
  waitForAttached := fun _ _ _ => .ok ()
  textContent := fun _ _ => .ok (some "T")
  innerHTML := fun _ _ => .ok ""
  inputValue := fun _ _ => .ok ""
  innerText := fun _ _ => .ok ""
  getAttr := fun _ _ _ => .ok none
  isVisible := fun _ _ => .ok true
  isDisabled := fun _ _ => .ok false
  clickLoc := fun w _ => .ok (w + 1)
  typeText := fun w _ _ => .ok w
  scrollIntoView := fun w _ => .ok w
  scrollBy := fun w _ => w
  innerHeight := fun _ => 600
  goto := fun w _ _ => .ok w
  reload := fun w _ => .ok w
  waitNetworkIdle := fun w _ => .ok w
  pageUrl := fun _ _ => ""
  resolveUrl := fun h _ => h
  newPage := fun w => (1, w)
  closePage := fun w _ => w
  openByClick := fun _ _ => .error "no page"
  downloadEvent := fun w _ => (false, w)
  downloadFetch := fun w _ => (false, w)
  savePdf := fun w _ _ => (false, w)
  printPdf := fun w _ _ => (false, w) }

def pagNextCfg (mp : Option Nat) : PaginationConfig :=
  { strategy := .next
    nextButton := some { object_type := .cls, object := "nx", wait := none }
    scroll := none
    maxPages := mp
    paginationFirst := none
    paginateAllFirst := none }

def tmplWaitPag (mp : Option Nat) : TabTemplate :=
  { tab := "t", initSteps := none, perPageSteps := some [fixWaitStep],
    steps := none, pagination := some (pagNextCfg mp) }

/-- Witness for the amended C4: `maxPages = 2` with an always-clickable
next control performs exactly 2 collections, within the proven bound. -/
theorem executeTab_respects_maxPages_witness :
    (((⟨1, [], 2⟩ : ExecSt Nat), ([] : List CValue),
      (none : Option Err)).1).collects ≤ (⟨0, [], 0⟩ : ExecSt Nat).collects + 2 :=
  executeTab_respects_maxPages countingDriver false 2 10 0 (tmplWaitPag (some 2))
    ⟨0, [], 0⟩ (⟨1, [], 2⟩, [], none) (pagNextCfg (some 2)) 2 rfl rfl
    (by decide) rfl

/-- Counterexample to C4 as stated: `maxPages = 0` is set but falsy, so
the guard never fires and the loop still runs a page collection — here 1
collection where the configured bound permits 0 (the loop stops only
because the next control is absent). -/
theorem maxPages_zero_unbounded_counterexample :
    executeTab countingDriver false 2 10 0 (tmplWaitPag (some 0)) ⟨3, [], 0⟩ =
      some (⟨3, [], 1⟩, [], none) ∧
    (pagNextCfg (some 0)).maxPages = some 0 ∧ ¬((1 : Nat) ≤ 0 + 0) :=
  ⟨rfl, rfl, by decide⟩

/-! ## C7: single delivery of streamed records -/

/-- The flat stream of records a registered streaming callback receives
from the emission log: a `.one` emission delivers one record, a `.many`
emission delivers its elements in order. -/
def deliveredRecords (es : List (FlatResult × Nat)) : List Collector :=
  es.foldr (fun e acc =>
    (match e.1 with
     | .one c => [c]
     | .many cs => cs) ++ acc) []

/-- With the global callback registered, the item-record loop of the
per-page assembly emits nothing: its direct-callback guard is
`onResult && !global.onResultCallback`. -/
lemma assembleItems_no_emit_of_gcb (onRes : Bool) (collected : Collector) :
    ∀ (ks : List String) (ri : Nat),
      (assembleItems onRes true collected ks ri).2.1 = [] := by
  intro ks
  induction ks with
  | nil => intro ri; rfl
  | cons k rest ih =>
    intro ri
    cases hlv : lookupKey collected k with
    | none => simp only [assembleItems, hlv]; exact ih ri
    | some v =>
      simp only [assembleItems, hlv]
      by_cases hc : truthyCV v = true ∧ 0 < cvKeysCount v
      · rw [if_pos hc]
        simp only [Bool.not_true, Bool.false_eq_true, and_false, if_false,
          List.nil_append]
        exact ih (ri + 1)
      · rw [if_neg hc]
        exact ih ri

/-- **C7 (amended).** The half of the claim that holds: once `executeTab`
has registered the global streaming callback (`gcb = true`, which it does
exactly when a callback was supplied), the outer per-page record-assembly
path delivers nothing for `item_*` records — those records reach the
callback only through the foreach streaming path, so that path never
re-delivers them.  The other half of the claim is false: with nested
foreach loops the inner item is delivered twice, once by the inner
foreach's own emission and again inside the outer item's flattened
emission (see the nested counterexample). -/
theorem per_page_no_reemission_when_callback (onRes : Bool)
    (collected : Collector) (ri : Nat)
    (h : 0 < ((colKeys collected).filter isItemKey).length) :
    (assembleRecords onRes true collected ri).2.1 = [] := by
  have hne : collected.isEmpty = false := by
    cases collected with
    | nil => simp [colKeys] at h
    | cons a t => rfl
  simp only [assembleRecords, hne, Bool.false_eq_true, if_false]
  rw [if_pos h]
  exact assembleItems_no_emit_of_gcb onRes collected _ ri

theorem per_page_no_reemission_when_callback_witness :
    0 < ((colKeys [("item_0", CValue.vobj [("k", CValue.vstr "T")])]).filter
      isItemKey).length ∧
    (assembleRecords true true
      [("item_0", CValue.vobj [("k", CValue.vstr "T")])] 0).2.1 = [] :=
  ⟨by decide, per_page_no_reemission_when_callback true
    [("item_0", CValue.vobj [("k", CValue.vstr "T")])] 0 (by decide)⟩

/-- A driver like the benign one, but every probed selector matches one
element. -/
def drvOne : Driver Unit := { baseDriver with count := fun _ _ => .ok 1 }

/-- An inner foreach over `.row` running the text extraction, with its
own `index_key "j"`. -/
def feInner : BaseStep :=
  .mk "fi" none (some .cls) (some "row") .foreach none none none none none
    [fixDataStep] none (some "j")

/-- An outer foreach over `.grp` whose only sub-step is the inner
foreach. -/
def feOuter : BaseStep :=
  .mk "fo" none (some .cls) (some "grp") .foreach none none none none none
    [feInner] none none

/-- Counterexample to C7 as stated: under a registered callback, a nested
foreach delivers the inner record `\x7b k: "T" \x7d` twice — the inner
foreach emits it as a `.one` at its own iteration, and the outer foreach
then emits its item collector flattened, which contains the same record
again. -/
theorem nested_foreach_double_delivery :
    execStep drvOne true 4 0 feOuter [] none st0 =
      some (⟨(), [(.one [("k", .vstr "T")], 0),
                  (.many [[("k", .vstr "T")]], 0)], 0⟩,
        [("item_0", .vobj [("item_0", .vobj [("k", .vstr "T")])])], none) ∧
    deliveredRecords [(.one [("k", .vstr "T")], 0),
                      (.many [[("k", .vstr "T")]], 0)] =
      [[("k", .vstr "T")], [("k", .vstr "T")]] :=
  ⟨rfl, rfl⟩

end StepWright
